import Mathlib

/-!
Verification of the hex-grid tactical combat core (`HexGrid.js`, `Enemy.js`).

The JavaScript source is shallowly embedded: axial coordinates become a
`Hex` structure over `Int`, fractional cube coordinates (IEEE numbers in the
source) are idealised as `ℚ`, JS `Map`s become association lists with
first-match lookup, the ECMAScript stable `Array.prototype.sort` is modelled
by a stable insertion sort, and the unbounded `while` loops of the A* search
and the AI turn machine are given explicit fuel large enough to cover every
run that the theorems below talk about.
-/

namespace LucaGame

/-- Axial hex coordinate `(q, r)`; the implicit cube coordinate is `s = -q-r`. -/
structure Hex where
  q : Int
  r : Int
deriving DecidableEq, Repr

/-- Integer range `[lo, hi]` as a list, in increasing order. -/
def intRange (lo hi : Int) : List Int :=
  (List.range (hi + 1 - lo).toNat).map (fun (i : Nat) => lo + (i : Int))

/-- `HexGrid.generateHexGrid`: all positions of the hexagonal board of the
given radius, generated by the same double loop as the source
(`for q in [-radius, radius]`, `for r in [max(-radius,-q-radius), min(radius,-q+radius)]`). -/
def generateHexGrid (radius : Nat) : List Hex :=
  (intRange (-(radius : Int)) radius).flatMap (fun q =>
    (intRange (max (-(radius : Int)) (-q - radius)) (min (radius : Int) (-q + radius))).map
      (fun r => ⟨q, r⟩))

/-- `HexGrid.isValidHex`: membership scan of the generated position list. -/
def isValidHex (radius : Nat) (q r : Int) : Bool :=
  (generateHexGrid radius).any (fun hex => hex.q == q && hex.r == r)

/-- The six axial direction offsets, in the fixed source order. -/
def directions : List Hex :=
  [⟨1, 0⟩, ⟨1, -1⟩, ⟨0, -1⟩, ⟨-1, 0⟩, ⟨-1, 1⟩, ⟨0, 1⟩]

/-- `HexGrid.getNeighbors`: the six offsets applied to `(q, r)`, filtered to
valid board coordinates, preserving the direction order. -/
def getNeighbors (radius : Nat) (q r : Int) : List Hex :=
  (directions.map (fun dir => Hex.mk (q + dir.q) (r + dir.r))).filter
    (fun hex => isValidHex radius hex.q hex.r)

/-- `HexGrid.getDistance`: `(|Δq| + |Δq+Δr| + |Δr|) / 2`.  The sum is always
even, so integer division is exact; the JS number is a nonnegative integer
and is modelled as `Nat`. -/
def getDistance (q1 r1 q2 r2 : Int) : Nat :=
  ((q1 - q2).natAbs + (q1 + r1 - q2 - r2).natAbs + (r1 - r2).natAbs) / 2

/-! ### Cube rounding (`HexGrid.roundHex`, `HexGrid.roundCube`) -/

/-- ECMAScript `Math.round`: round half toward `+∞`, i.e. `⌊x + 1/2⌋`.
The IEEE doubles of the source are idealised as rationals. -/
def jsRound (x : ℚ) : Int := ⌊x + 1 / 2⌋

/-- `HexGrid.roundCube`: round each cube coordinate, then recompute the one
with the largest rounding error from the other two; only `(q, r)` is
returned (axial form). -/
def roundCube (q r s : ℚ) : Hex :=
  let rq := jsRound q
  let rr := jsRound r
  let rs := jsRound s
  let qDiff := |(rq : ℚ) - q|
  let rDiff := |(rr : ℚ) - r|
  let sDiff := |(rs : ℚ) - s|
  if qDiff > rDiff ∧ qDiff > sDiff then ⟨-rr - rs, rr⟩
  else if rDiff > sDiff then ⟨rq, -rq - rs⟩
  else ⟨rq, rr⟩

/-- `HexGrid.roundHex`: identical algorithm, with `s := -q - r` derived first. -/
def roundHex (q r : ℚ) : Hex :=
  let s := -q - r
  let rq := jsRound q
  let rr := jsRound r
  let rs := jsRound s
  let qDiff := |(rq : ℚ) - q|
  let rDiff := |(rr : ℚ) - r|
  let sDiff := |(rs : ℚ) - s|
  if qDiff > rDiff ∧ qDiff > sDiff then ⟨-rr - rs, rr⟩
  else if rDiff > sDiff then ⟨rq, -rq - rs⟩
  else ⟨rq, rr⟩

/-- The full cube triple computed by the rounding algorithm; in the final
branch `rs` is recomputed from the other two, exactly as the source comment
records (`// else rs = -rq - rr`). -/
def roundCubeTriple (q r s : ℚ) : Int × Int × Int :=
  let rq := jsRound q
  let rr := jsRound r
  let rs := jsRound s
  let qDiff := |(rq : ℚ) - q|
  let rDiff := |(rr : ℚ) - r|
  let sDiff := |(rs : ℚ) - s|
  if qDiff > rDiff ∧ qDiff > sDiff then ⟨-rr - rs, rr, rs⟩
  else if rDiff > sDiff then ⟨rq, -rq - rs, rs⟩
  else ⟨rq, rr, -rq - rr⟩

/-- `HexGrid.getHexLine`: `N+1` evenly spaced samples of the straight cube
line from `(q1,r1)` to `(q2,r2)`, each rounded to the nearest hex. -/
def getHexLine (q1 r1 q2 r2 : Int) : List Hex :=
  let N := getDistance q1 r1 q2 r2
  if N = 0 then [⟨q1, r1⟩]
  else
    let s1 : ℚ := ((-q1 - r1 : Int) : ℚ)
    let s2 : ℚ := ((-q2 - r2 : Int) : ℚ)
    (List.range (N + 1)).map (fun (i : Nat) =>
      let t : ℚ := (i : ℚ) / (N : ℚ)
      roundCube ((q1 : ℚ) + ((q2 : ℚ) - (q1 : ℚ)) * t)
        ((r1 : ℚ) + ((r2 : ℚ) - (r1 : ℚ)) * t) (s1 + (s2 - s1) * t))

/-- `HexGrid.hasLineOfSight`: the same hex always sees itself; otherwise no
interior sample (indices `1 .. length-2`) of the hex line may be a blocker. -/
def hasLineOfSight (q1 r1 q2 r2 : Int) (blockers : List Hex) : Bool :=
  if q1 = q2 ∧ r1 = r2 then true
  else
    let lineHexes := getHexLine q1 r1 q2 r2
    ((lineHexes.drop 1).dropLast).all fun hex =>
      !(blockers.any fun b => b.q == hex.q && b.r == hex.r)

/-! ### A* pathfinding (`HexGrid.findPath`)

Scores are JS numbers that may be `Infinity`; they are modelled as
`Option Nat` with `none` for `Infinity`.  Note the source computes
`tentativeG` as `(gScore.get(currentKey) || Infinity) + 1`: since `0` is
falsy in JavaScript, a stored g-score of `0` (the start node) also falls
back to `Infinity`.  `orInfinity` reproduces this behaviour exactly.

`Array.prototype.sort` with comparator `(a, b) => a.f - b.f` is required by
ECMAScript to be stable, and a comparator result of `NaN` (from
`Infinity - Infinity`) is treated as `0`; a stable insertion sort by the
order `infLe` (under which two `Infinity` entries are tied) is therefore an
exact model.  JS `Map`s become association lists where `set` conses a new
binding and `get` finds the most recent one. -/

def infSucc : Option Nat → Option Nat
  | none => none
  | some g => some (g + 1)

def infAdd : Option Nat → Nat → Option Nat
  | none, _ => none
  | some g, h => some (g + h)

/-- JS `<` on scores: `Infinity < x` is false, `a < Infinity` is true. -/
def infLt : Option Nat → Option Nat → Bool
  | none, _ => false
  | some _, none => true
  | some a, some b => a < b

def infLe (a b : Option Nat) : Bool := !(infLt b a)

/-- JS `x || Infinity` applied to a possibly-missing stored score: missing,
`Infinity`, and the falsy `0` all become `Infinity`. -/
def orInfinity : Option (Option Nat) → Option Nat
  | none => none
  | some none => none
  | some (some g) => if g = 0 then none else some g

def insertByF (x : Hex × Option Nat) : List (Hex × Option Nat) → List (Hex × Option Nat)
  | [] => [x]
  | y :: ys => if infLe x.2 y.2 then x :: y :: ys else y :: insertByF x ys

/-- Stable sort by stored f-score (the model of `openSet.sort((a,b) => a.f - b.f)`). -/
def sortByF : List (Hex × Option Nat) → List (Hex × Option Nat)
  | [] => []
  | x :: xs => insertByF x (sortByF xs)

def lookupMap {α : Type} (m : List (Hex × α)) (k : Hex) : Option α :=
  (m.find? (fun p => p.1 == k)).map Prod.snd

structure AStarState where
  openSet : List (Hex × Option Nat)
  closedSet : List Hex
  cameFrom : List (Hex × Hex)
  gScore : List (Hex × Option Nat)
  fScore : List (Hex × Option Nat)

def isBlocked (obstacles : List Hex) (q r : Int) : Bool :=
  obstacles.any (fun o => o.q == q && o.r == r)

/-- One step of the `for (const neighbor of neighbors)` loop of `findPath`. -/
def expandNeighbor (endQ endR : Int) (obstacles : List Hex) (current : Hex)
    (st : AStarState) (neighbor : Hex) : AStarState :=
  if st.closedSet.any (fun h => h == neighbor) then st
  else if isBlocked obstacles neighbor.q neighbor.r then st
  else
    let tentativeG := infSucc (orInfinity (lookupMap st.gScore current))
    let cond : Bool := match lookupMap st.gScore neighbor with
      | none => true
      | some existing => infLt tentativeG existing
    if cond then
      let h := getDistance neighbor.q neighbor.r endQ endR
      let f := infAdd tentativeG h
      let st1 : AStarState := { st with
        cameFrom := (neighbor, current) :: st.cameFrom,
        gScore := (neighbor, tentativeG) :: st.gScore,
        fScore := (neighbor, f) :: st.fScore }
      if st.openSet.any (fun n => n.1 == neighbor) then st1
      else { st1 with openSet := st1.openSet ++ [(neighbor, f)] }
    else st

/-- The `while (curr)` walk over `cameFrom` during path reconstruction,
with fuel (the chain is finite in every run the theorems below cover). -/
def reconPath (cameFrom : List (Hex × Hex)) : Nat → Hex → List Hex
  | 0, curr => [curr]
  | fuel + 1, curr =>
    match lookupMap cameFrom curr with
    | none => [curr]
    | some p => curr :: reconPath cameFrom fuel p

/-- The main `while (openSet.length > 0)` loop of `findPath`, with fuel.
`none` = fuel exhausted (proved unreachable where used), `some none` = the
JS `null`, `some (some p)` = a found path. -/
def astarLoop (R : Nat) (endQ endR : Int) (obstacles : List Hex) :
    Nat → AStarState → Option (Option (List Hex))
  | 0, _ => none
  | fuel + 1, st =>
    match sortByF st.openSet with
    | [] => some none
    | current :: restOpen =>
      if current.1.q = endQ ∧ current.1.r = endR then
        some (some (((reconPath st.cameFrom ((2 * R + 1) * (2 * R + 1) + 2) current.1).reverse).drop 1))
      else
        astarLoop R endQ endR obstacles fuel
          ((getNeighbors R current.1.q current.1.r).foldl
            (expandNeighbor endQ endR obstacles current.1)
            { st with openSet := restOpen, closedSet := current.1 :: st.closedSet })

/-- `HexGrid.findPath`.  The fuel `(2R+1)² + 2` exceeds the number of board
hexes plus two, enough for every possible run (each loop iteration closes a
fresh node); exhaustion is mapped to `null` but proved unreachable in the
claims below. -/
def findPath (R : Nat) (startQ startR endQ endR : Int) (obstacles : List Hex) :
    Option (List Hex) :=
  let startH := getDistance startQ startR endQ endR
  let init : AStarState :=
    { openSet := [(⟨startQ, startR⟩, some startH)],
      closedSet := [],
      cameFrom := [],
      gScore := [(⟨startQ, startR⟩, some 0)],
      fScore := [(⟨startQ, startR⟩, some startH)] }
  match astarLoop R endQ endR obstacles ((2 * R + 1) * (2 * R + 1) + 2) init with
  | some result => result
  | none => none

/-! ### Enemy AI (`Enemy.js`)

The acting enemy, the player and the battle scene are combined into one
record; rendering, tweens and promises are dropped (they only sequence the
same state updates).  Other enemies are carried as position/liveness records
and, mirroring the reference comparison `enemy !== this` of the source, the
`others` list holds exactly the enemies distinct from the acting one.  Every
move/attack intent is also appended to an event trace so the theorems can
count actions. -/

inductive BattleAction where
  | move (hex : Hex)
  | attack
deriving DecidableEq, Repr

/-- Scene obstacle record `{q, r, type}`. -/
structure Obstacle where
  q : Int
  r : Int
  type : String
deriving DecidableEq, Repr

/-- Another enemy on the field, as seen by the acting one. -/
structure OtherBot where
  pos : Hex
  isAlive : Bool
deriving DecidableEq, Repr

/-- The acting enemy's mutable stats (`Enemy` fields used by the AI). -/
structure EnemyRec where
  pos : Hex
  hp : Int
  maxHP : Int
  damage : Int
  range : Nat
  ap : Int
  maxAP : Int
  maxAttacksPerTurn : Nat
  attacksThisTurn : Nat
  preferredDistance : Nat
  isAlive : Bool
deriving DecidableEq, Repr

/-- The battle state visible to one enemy's turn. -/
structure BattleState where
  enemy : EnemyRec
  playerPos : Hex
  playerHP : Int
  obstacles : List Obstacle
  others : List OtherBot
  battleOver : Bool
  events : List BattleAction
deriving DecidableEq, Repr

/-- `Enemy.takeDamage` (on the enemy record itself). -/
def takeDamage (e : EnemyRec) (amount : Int) : EnemyRec :=
  let e1 := { e with hp := max 0 (e.hp - amount) }
  if e1.hp ≤ 0 then { e1 with isAlive := false } else e1

/-- `Enemy.resetTurn`. -/
def resetTurn (e : EnemyRec) : EnemyRec :=
  { e with ap := e.maxAP, attacksThisTurn := 0 }

/-- `Enemy.canAttack`. -/
def canAttack (e : EnemyRec) : Bool :=
  e.attacksThisTurn < e.maxAttacksPerTurn && e.ap ≥ 1

/-- `Enemy.moveTo` (state part: update position, spend one action point). -/
def moveTo (st : BattleState) (q r : Int) : BattleState :=
  { st with
    enemy := { st.enemy with pos := ⟨q, r⟩, ap := st.enemy.ap - 1 },
    events := st.events ++ [BattleAction.move ⟨q, r⟩] }

/-- `BattleScene.damagePlayer`: clamp at 0, end the battle on death. -/
def damagePlayer (st : BattleState) (amount : Int) : BattleState :=
  let st1 := { st with playerHP := max 0 (st.playerHP - amount) }
  if st1.playerHP ≤ 0 then { st1 with battleOver := true } else st1

/-- `Enemy.attackPlayer`: no-op unless `canAttack`; otherwise count the
attack, spend a point and damage the player. -/
def attackPlayer (st : BattleState) : BattleState :=
  if canAttack st.enemy then
    damagePlayer
      { st with
        enemy := { st.enemy with
          attacksThisTurn := st.enemy.attacksThisTurn + 1,
          ap := st.enemy.ap - 1 },
        events := st.events ++ [BattleAction.attack] }
      st.enemy.damage
  else st

/-- `Enemy.getDistanceToPlayer`. -/
def getDistanceToPlayer (st : BattleState) : Nat :=
  getDistance st.enemy.pos.q st.enemy.pos.r st.playerPos.q st.playerPos.r

/-- The wall positions used for visibility queries. -/
def wallHexes (st : BattleState) : List Hex :=
  (st.obstacles.filter (fun o => o.type == "wall")).map (fun o => ⟨o.q, o.r⟩)

/-- `Enemy.hasLineOfSightToPlayer`: only walls block. -/
def hasLineOfSightToPlayer (st : BattleState) : Bool :=
  hasLineOfSight st.enemy.pos.q st.enemy.pos.r st.playerPos.q st.playerPos.r (wallHexes st)

/-- `Enemy.getObstacles`: scene obstacles, then the other live enemies, then
the player, in source order. -/
def getObstacles (st : BattleState) : List Obstacle :=
  st.obstacles ++
    (st.others.filter (fun e => e.isAlive)).map (fun e => ⟨e.pos.q, e.pos.r, "enemy"⟩) ++
    [⟨st.playerPos.q, st.playerPos.r, "player"⟩]

/-- `Enemy.moveTowardPlayer`: path to the player over all obstacles except
the player itself; take the first step unless another live enemy stands
there.  Returns whether a move happened. -/
def moveTowardPlayer (R : Nat) (st : BattleState) : Bool × BattleState :=
  let pathObstacles := ((getObstacles st).filter (fun o => o.type != "player")).map
    (fun o => Hex.mk o.q o.r)
  match findPath R st.enemy.pos.q st.enemy.pos.r st.playerPos.q st.playerPos.r pathObstacles with
  | none => (false, st)
  | some path =>
    if path.length > 1 then
      match path.head? with
      | none => (false, st)
      | some nextHex =>
        if st.others.any (fun e => e.isAlive && e.pos.q == nextHex.q && e.pos.r == nextHex.r)
        then (false, st)
        else (true, moveTo st nextHex.q nextHex.r)
    else (false, st)

/-- The best-neighbour fold of `Enemy.moveAwayFromPlayer`: keep the first
neighbour strictly farther than the best so far. -/
def bestRetreat (st : BattleState) (cands : List Hex) : Option Hex × Nat :=
  cands.foldl
    (fun acc n =>
      let dist := getDistance n.q n.r st.playerPos.q st.playerPos.r
      if dist > acc.2 then (some n, dist) else acc)
    (none, getDistanceToPlayer st)

/-- The `validNeighbors` filter of `Enemy.moveAwayFromPlayer`: valid,
unobstructed neighbours of the current position. -/
def retreatCandidates (R : Nat) (st : BattleState) : List Hex :=
  (getNeighbors R st.enemy.pos.q st.enemy.pos.r).filter (fun n =>
    isValidHex R n.q n.r && !((getObstacles st).any (fun o => o.q == n.q && o.r == n.r)))

/-- `Enemy.moveAwayFromPlayer`. -/
def moveAwayFromPlayer (R : Nat) (st : BattleState) : Bool × BattleState :=
  let validNeighbors := retreatCandidates R st
  if validNeighbors.length = 0 then (false, st)
  else
    match (bestRetreat st validNeighbors).1 with
    | some bestNeighbor => (true, moveTo st bestNeighbor.q bestNeighbor.r)
    | none => (false, st)

/-- `Enemy.executeMeleeTurn`, with fuel (each productive iteration spends an
action point, so `ap + 1` covers every run). -/
def executeMeleeTurnAux (R : Nat) : Nat → BattleState → BattleState
  | 0, st => st
  | fuel + 1, st =>
    if st.enemy.ap > 0 ∧ st.enemy.isAlive = true ∧ st.battleOver = false then
      if getDistanceToPlayer st = 1 ∧ canAttack st.enemy = true then
        executeMeleeTurnAux R fuel (attackPlayer st)
      else
        if st.enemy.ap ≥ 1 then
          match moveTowardPlayer R st with
          | (false, st') => st'
          | (true, st') => executeMeleeTurnAux R fuel st'
        else st
    else st

def executeMeleeTurn (R : Nat) (st : BattleState) : BattleState :=
  executeMeleeTurnAux R (st.enemy.ap.toNat + 1) st

/-- Phase 1 of `Enemy.executeRangedTurn`: step toward the player while out
of range or out of sight.  The `dist`/`hasLOS` loop variables are threaded
exactly as in the source. -/
def rangedApproach (R : Nat) : Nat → Nat → Bool → BattleState → Nat × Bool × BattleState
  | 0, dist, hasLOS, st => (dist, hasLOS, st)
  | fuel + 1, dist, hasLOS, st =>
    if (dist > st.enemy.range ∨ hasLOS = false) ∧ st.enemy.ap ≥ 1 ∧
        st.enemy.isAlive = true ∧ st.battleOver = false then
      match moveTowardPlayer R st with
      | (false, st') => (dist, hasLOS, st')
      | (true, st') =>
        rangedApproach R fuel (getDistanceToPlayer st') (hasLineOfSightToPlayer st') st'
    else (dist, hasLOS, st)

/-- Phase 3 of `Enemy.executeRangedTurn`: retreat while closer than the
preferred distance. -/
def rangedRetreat (R : Nat) : Nat → Nat → BattleState → BattleState
  | 0, _, st => st
  | fuel + 1, dist, st =>
    if dist < st.enemy.preferredDistance ∧ st.enemy.ap ≥ 1 ∧
        st.enemy.isAlive = true ∧ st.battleOver = false then
      match moveAwayFromPlayer R st with
      | (false, st') => st'
      | (true, st') => rangedRetreat R fuel (getDistanceToPlayer st') st'
    else st

/-- `Enemy.executeRangedTurn`: approach, at most one attack, retreat. -/
def executeRangedTurn (R : Nat) (st : BattleState) : BattleState :=
  let a := rangedApproach R (st.enemy.ap.toNat + 1) (getDistanceToPlayer st)
    (hasLineOfSightToPlayer st) st
  match a with
  | (dist, hasLOS, st1) =>
    let afterAttack :=
      if canAttack st1.enemy = true ∧ dist ≤ st1.enemy.range ∧ hasLOS = true ∧
          st1.enemy.isAlive = true ∧ st1.battleOver = false then
        (getDistanceToPlayer (attackPlayer st1), attackPlayer st1)
      else (dist, st1)
    rangedRetreat R (afterAttack.2.enemy.ap.toNat + 1) afterAttack.1 afterAttack.2

/-! ### Concrete states for the scenario claims -/

/-- A melee enemy (`scrapper` stats) standing at `(2,0)`. -/
def meleeEnemyAt20 : EnemyRec :=
  { pos := ⟨2, 0⟩, hp := 7, maxHP := 7, damage := 2, range := 1, ap := 3, maxAP := 3,
    maxAttacksPerTurn := 2, attacksThisTurn := 0, preferredDistance := 1, isAlive := true }

/-- The melee scenario: enemy at `(2,0)`, player at `(0,0)`, empty board. -/
def meleeScenario : BattleState :=
  { enemy := meleeEnemyAt20, playerPos := ⟨0, 0⟩, playerHP := 20, obstacles := [],
    others := [], battleOver := false, events := [] }

/-- A ranged enemy (`turret` stats) standing at `(3,0)`. -/
def rangedEnemyAt30 : EnemyRec :=
  { pos := ⟨3, 0⟩, hp := 5, maxHP := 5, damage := 1, range := 3, ap := 3, maxAP := 3,
    maxAttacksPerTurn := 2, attacksThisTurn := 0, preferredDistance := 3, isAlive := true }

/-- The ranged scenario: enemy at `(3,0)`, player at `(0,0)`, empty board. -/
def rangedScenario : BattleState :=
  { enemy := rangedEnemyAt30, playerPos := ⟨0, 0⟩, playerHP := 20, obstacles := [],
    others := [], battleOver := false, events := [] }

/-- A battle state whose enemy has no action points left. -/
def spentMeleeScenario : BattleState :=
  { meleeScenario with enemy := { meleeEnemyAt20 with ap := 0 } }

/-! ### Infrastructure for the pathfinding proofs -/

/-- The `(2R+1) × (2R+1)` coordinate square, a superset of the board used to
bound the search. -/
def squareList (R : Nat) : List Hex :=
  (intRange (-(R : Int)) R).flatMap (fun q => (intRange (-(R : Int)) R).map (fun r => ⟨q, r⟩))

/-- The neighbours that a call of the expansion loop discovers: not closed,
not blocked, not seen before. -/
def newsOf (obstacles : List Hex) (σ : AStarState) (ns : List Hex) : List Hex :=
  ns.filter (fun n => !(σ.closedSet.any (fun h => h == n)) &&
    !(isBlocked obstacles n.q n.r) && !(lookupMap σ.gScore n).isSome)

/-- Invariant of the search loop used for runs whose goal hex can never be
popped: open entries are the start or board hexes with `Infinity` f-scores,
open and closed lists stay duplicate-free and disjoint, and the g-score map
stores `0` for the start and `Infinity` for everything else. -/
structure SearchInv (R : Nat) (start : Hex) (σ : AStarState) : Prop where
  open_ok : ∀ e ∈ σ.openSet, e.1 = start ∨ isValidHex R e.1.q e.1.r = true
  open_none : ∀ e ∈ σ.openSet, e.2 = none
  open_nodup : (σ.openSet.map Prod.fst).Nodup
  open_closed : ∀ e ∈ σ.openSet, e.1 ∉ σ.closedSet
  closed_ok : ∀ x ∈ σ.closedSet, x = start ∨ isValidHex R x.q x.r = true
  closed_nodup : σ.closedSet.Nodup
  seen_iff : ∀ x, (lookupMap σ.gScore x).isSome = true ↔
    (x ∈ σ.closedSet ∨ x ∈ σ.openSet.map Prod.fst)
  g_start : lookupMap σ.gScore start = some (some 0)
  g_values : ∀ x v, x ≠ start → lookupMap σ.gScore x = some v → v = none

/-- Invariant of the search loop on an empty obstacle set: because of the
`|| Infinity` quirk every reachable node gets g-score `Infinity` and f-score
`Infinity`, the stable sort leaves the open list untouched, and the loop
degenerates into breadth-first search.  Layers are measured as
`getDistance x start`; the open list is a FIFO queue spanning at most two
consecutive layers, every hex strictly below all open layers is closed, and
`cameFrom` links every seen non-start hex to a closed parent one layer
down. -/
structure BfsInv (R : Nat) (start goal : Hex) (σ : AStarState) : Prop where
  open_none : ∀ e ∈ σ.openSet, e.2 = none
  open_valid : ∀ e ∈ σ.openSet, isValidHex R e.1.q e.1.r = true
  open_nodup : (σ.openSet.map Prod.fst).Nodup
  open_closed : ∀ e ∈ σ.openSet, e.1 ∉ σ.closedSet
  closed_valid : ∀ x ∈ σ.closedSet, isValidHex R x.q x.r = true
  closed_nodup : σ.closedSet.Nodup
  start_closed : start ∈ σ.closedSet
  goal_open : goal ∉ σ.closedSet
  seen_iff : ∀ x, (lookupMap σ.gScore x).isSome = true ↔
    (x ∈ σ.closedSet ∨ x ∈ σ.openSet.map Prod.fst)
  g_start : lookupMap σ.gScore start = some (some 0)
  g_values : ∀ x v, x ≠ start → lookupMap σ.gScore x = some v → v = none
  nbrs_seen : ∀ y ∈ σ.closedSet, ∀ n ∈ getNeighbors R y.q y.r,
    (lookupMap σ.gScore n).isSome = true
  open_sorted : σ.openSet.Pairwise (fun a b =>
    getDistance a.1.q a.1.r start.q start.r ≤ getDistance b.1.q b.1.r start.q start.r)
  open_window : ∀ a ∈ σ.openSet, ∀ b ∈ σ.openSet,
    getDistance a.1.q a.1.r start.q start.r ≤ getDistance b.1.q b.1.r start.q start.r + 1
  below_closed : ∀ x : Hex, isValidHex R x.q x.r = true →
    (∀ e ∈ σ.openSet, getDistance x.q x.r start.q start.r <
      getDistance e.1.q e.1.r start.q start.r) → x ∈ σ.closedSet
  cf_start : lookupMap σ.cameFrom start = none
  cf_seen : ∀ x, x ≠ start → (lookupMap σ.gScore x).isSome = true →
    (lookupMap σ.cameFrom x).isSome = true
  cf_spec : ∀ x p, lookupMap σ.cameFrom x = some p → p ∈ σ.closedSet ∧
    x ∈ getNeighbors R p.q p.r ∧
    getDistance x.q x.r start.q start.r = getDistance p.q p.r start.q start.r + 1

theorem intRange_mem (lo hi x : Int) : x ∈ intRange lo hi ↔ lo ≤ x ∧ x ≤ hi := by
  unfold intRange
  rw [List.mem_map]
  constructor
  · rintro ⟨i, hi', rfl⟩
    rw [List.mem_range] at hi'
    omega
  · rintro ⟨h1, h2⟩
    refine ⟨(x - lo).toNat, ?_, by omega⟩
    rw [List.mem_range]
    omega

theorem generateHexGrid_mem (radius : Nat) (h : Hex) :
    h ∈ generateHexGrid radius ↔
      h.q.natAbs ≤ radius ∧ h.r.natAbs ≤ radius ∧ (h.q + h.r).natAbs ≤ radius := by
  unfold generateHexGrid
  simp only [List.mem_flatMap, List.mem_map]
  constructor
  · rintro ⟨q, hq, r, hr, rfl⟩
    rw [intRange_mem] at hq hr
    simp only
    omega
  · rintro ⟨h1, h2, h3⟩
    exact ⟨h.q, by rw [intRange_mem]; omega, h.r, by rw [intRange_mem]; omega, rfl⟩

/-- Validity of a coordinate is the cube-norm bound `max(|q|,|r|,|q+r|) ≤ radius`. -/
theorem isValidHex_iff (radius : Nat) (q r : Int) :
    isValidHex radius q r = true ↔
      q.natAbs ≤ radius ∧ r.natAbs ≤ radius ∧ (q + r).natAbs ≤ radius := by
  unfold isValidHex
  rw [List.any_eq_true]
  constructor
  · rintro ⟨hex, hmem, hqr⟩
    rw [generateHexGrid_mem] at hmem
    simp only [Bool.and_eq_true, beq_iff_eq] at hqr
    obtain ⟨hq, hr⟩ := hqr
    subst hq; subst hr
    exact hmem
  · intro hb
    exact ⟨⟨q, r⟩, (generateHexGrid_mem radius ⟨q, r⟩).mpr hb, by simp⟩

theorem getNeighbors_mem (radius : Nat) (q r : Int) (h : Hex) :
    h ∈ getNeighbors radius q r ↔
      (∃ d ∈ directions, h = ⟨q + d.q, r + d.r⟩) ∧ isValidHex radius h.q h.r = true := by
  unfold getNeighbors
  rw [List.mem_filter]
  simp only [List.mem_map]
  constructor
  · rintro ⟨⟨d, hd, rfl⟩, hv⟩
    exact ⟨⟨d, hd, rfl⟩, hv⟩
  · rintro ⟨⟨d, hd, rfl⟩, hv⟩
    exact ⟨⟨d, hd, rfl⟩, hv⟩

/-- The hex distance is the max of the absolute cube-coordinate differences. -/
theorem getDistance_eq_max (q1 r1 q2 r2 : Int) :
    getDistance q1 r1 q2 r2 =
      max (max (q1 - q2).natAbs (r1 - r2).natAbs) (q1 + r1 - q2 - r2).natAbs := by
  unfold getDistance
  omega

theorem getDistance_self (q r : Int) : getDistance q r q r = 0 := by
  unfold getDistance
  omega

theorem getDistance_comm (q1 r1 q2 r2 : Int) :
    getDistance q1 r1 q2 r2 = getDistance q2 r2 q1 r1 := by
  unfold getDistance
  omega

theorem getDistance_triangle (q1 r1 q2 r2 q3 r3 : Int) :
    getDistance q1 r1 q3 r3 ≤ getDistance q1 r1 q2 r2 + getDistance q2 r2 q3 r3 := by
  unfold getDistance
  omega

/-- Distance 1 is exactly a one-direction offset. -/
theorem getDistance_eq_one_iff (q1 r1 q2 r2 : Int) :
    getDistance q1 r1 q2 r2 = 1 ↔ (∃ d ∈ directions, Hex.mk q2 r2 = ⟨q1 + d.q, r1 + d.r⟩) := by
  unfold getDistance directions
  simp only [List.mem_cons, List.not_mem_nil, or_false, exists_eq_or_imp, exists_eq_left,
    Hex.mk.injEq]
  omega

/-- Any neighbour step changes the distance to a fixed point by at most one. -/
theorem getDistance_step_le (q r q2 r2 : Int) (d : Hex) (hd : d ∈ directions) :
    getDistance (q + d.q) (r + d.r) q2 r2 ≤ getDistance q r q2 r2 + 1 ∧
    getDistance q r q2 r2 ≤ getDistance (q + d.q) (r + d.r) q2 r2 + 1 := by
  simp only [directions, List.mem_cons, List.not_mem_nil, or_false] at hd
  rcases hd with rfl | rfl | rfl | rfl | rfl | rfl <;>
    (unfold getDistance; dsimp only; constructor <;> omega)

/-- Board convexity: from a valid hex strictly away from a valid target, some
valid neighbour is strictly closer to the target. -/
theorem exists_closer_neighbor (radius : Nat) (a b : Hex)
    (ha : isValidHex radius a.q a.r = true) (hb : isValidHex radius b.q b.r = true)
    (hpos : 1 ≤ getDistance a.q a.r b.q b.r) :
    ∃ w ∈ getNeighbors radius a.q a.r,
      getDistance w.q w.r b.q b.r + 1 = getDistance a.q a.r b.q b.r := by
  rw [isValidHex_iff] at ha hb
  obtain ⟨ha1, ha2, ha3⟩ := ha
  obtain ⟨hb1, hb2, hb3⟩ := hb
  have pick : ∀ dq dr : Int, Hex.mk dq dr ∈ directions →
      (a.q + dq).natAbs ≤ radius → (a.r + dr).natAbs ≤ radius →
      (a.q + dq + (a.r + dr)).natAbs ≤ radius →
      getDistance (a.q + dq) (a.r + dr) b.q b.r + 1 = getDistance a.q a.r b.q b.r →
      ∃ w ∈ getNeighbors radius a.q a.r,
        getDistance w.q w.r b.q b.r + 1 = getDistance a.q a.r b.q b.r := by
    intro dq dr hd h1 h2 h3 h4
    refine ⟨⟨a.q + dq, a.r + dr⟩, ?_, h4⟩
    rw [getNeighbors_mem]
    exact ⟨⟨⟨dq, dr⟩, hd, rfl⟩, (isValidHex_iff radius _ _).mpr ⟨h1, h2, h3⟩⟩
  have hne : ¬(b.q - a.q = 0 ∧ b.r - a.r = 0) := by
    unfold getDistance at hpos
    omega
  rcases lt_trichotomy (b.q - a.q) 0 with hq | hq | hq
  · rcases le_or_lt (b.r - a.r) 0 with hr | hr
    · -- dq < 0, dr ≤ 0, hence ds > 0 : step (-1, 0)
      refine pick (-1) 0 (by simp [directions]) (by omega) (by omega) (by omega) ?_
      unfold getDistance
      omega
    · -- dq < 0, dr > 0 : step (-1, 1)
      refine pick (-1) 1 (by simp [directions]) (by omega) (by omega) (by omega) ?_
      unfold getDistance
      omega
  · rcases lt_trichotomy (b.r - a.r) 0 with hr | hr | hr
    · -- dq = 0, dr < 0 : step (0, -1)
      refine pick 0 (-1) (by simp [directions]) (by omega) (by omega) (by omega) ?_
      unfold getDistance
      omega
    · exact absurd ⟨hq, hr⟩ hne
    · -- dq = 0, dr > 0 : step (0, 1)
      refine pick 0 1 (by simp [directions]) (by omega) (by omega) (by omega) ?_
      unfold getDistance
      omega
  · rcases lt_or_le (b.r - a.r) 0 with hr | hr
    · -- dq > 0, dr < 0 : step (1, -1)
      refine pick 1 (-1) (by simp [directions]) (by omega) (by omega) (by omega) ?_
      unfold getDistance
      omega
    · -- dq > 0, dr ≥ 0 : step (1, 0)
      refine pick 1 0 (by simp [directions]) (by omega) (by omega) (by omega) ?_
      unfold getDistance
      omega

theorem jsRound_sub_le (x : ℚ) : (jsRound x : ℚ) - x ≤ 1 / 2 := by
  unfold jsRound
  have h := Int.floor_le (x + 1 / 2)
  linarith

theorem neg_half_lt_jsRound_sub (x : ℚ) : -(1 / 2) < (jsRound x : ℚ) - x := by
  unfold jsRound
  have h := Int.lt_floor_add_one (x + 1 / 2)
  push_cast at h
  linarith

theorem jsRound_intCast (n : Int) : jsRound (n : ℚ) = n := by
  unfold jsRound
  rw [Int.floor_int_add]
  norm_num

/-- If two rounding errors sum to at least 1, both are exactly `1/2`. -/
theorem jsRound_err_sum (x y : ℚ) (h : 1 ≤ ((jsRound x : ℚ) - x) + ((jsRound y : ℚ) - y)) :
    (jsRound x : ℚ) - x = 1 / 2 ∧ (jsRound y : ℚ) - y = 1 / 2 := by
  have hx := jsRound_sub_le x
  have hy := jsRound_sub_le y
  constructor <;> linarith

/-- Every component of the rounded hex lies strictly within distance 1 of the
corresponding fractional cube coordinate (the recomputed coordinate included). -/
theorem roundCube_close (q r s : ℚ) (hsum : q + r + s = 0) :
    |((roundCube q r s).q : ℚ) - q| < 1 ∧ |((roundCube q r s).r : ℚ) - r| < 1 ∧
      |((-(roundCube q r s).q - (roundCube q r s).r : Int) : ℚ) - s| < 1 := by
  have hq1 := jsRound_sub_le q
  have hq2 := neg_half_lt_jsRound_sub q
  have hr1 := jsRound_sub_le r
  have hr2 := neg_half_lt_jsRound_sub r
  have hs1 := jsRound_sub_le s
  have hs2 := neg_half_lt_jsRound_sub s
  unfold roundCube
  dsimp only
  split_ifs with h1 h2
  · -- corrected q
    obtain ⟨h1a, h1b⟩ := h1
    refine ⟨?_, by rw [abs_lt]; constructor <;> (push_cast; linarith),
      by push_cast; rw [abs_lt]; constructor <;> linarith⟩
    rw [abs_lt]
    push_cast
    refine ⟨?_, by linarith⟩
    by_contra hcon
    push_neg at hcon
    have hsum2 : 1 ≤ ((jsRound r : ℚ) - r) + ((jsRound s : ℚ) - s) := by linarith
    obtain ⟨e1, e2⟩ := jsRound_err_sum r s hsum2
    have hrd : |(jsRound r : ℚ) - r| = 1 / 2 := by rw [e1]; norm_num
    have hqd : |(jsRound q : ℚ) - q| ≤ 1 / 2 := abs_le.mpr ⟨by linarith, hq1⟩
    rw [hrd] at h1a
    linarith
  · -- corrected r
    refine ⟨by rw [abs_lt]; constructor <;> (push_cast; linarith), ?_,
      by push_cast; rw [abs_lt]; constructor <;> linarith⟩
    rw [abs_lt]
    push_cast
    refine ⟨?_, by linarith⟩
    by_contra hcon
    push_neg at hcon
    have hsum2 : 1 ≤ ((jsRound q : ℚ) - q) + ((jsRound s : ℚ) - s) := by linarith
    obtain ⟨e1, e2⟩ := jsRound_err_sum q s hsum2
    have hsd : |(jsRound s : ℚ) - s| = 1 / 2 := by rw [e2]; norm_num
    have hrd : |(jsRound r : ℚ) - r| ≤ 1 / 2 := abs_le.mpr ⟨by linarith, hr1⟩
    rw [hsd] at h2
    linarith
  · -- corrected s (implicitly)
    refine ⟨by rw [abs_lt]; constructor <;> (push_cast; linarith),
      by rw [abs_lt]; constructor <;> (push_cast; linarith), ?_⟩
    rw [abs_lt]
    push_cast
    refine ⟨?_, by linarith⟩
    by_contra hcon
    push_neg at hcon
    have hsum2 : 1 ≤ ((jsRound q : ℚ) - q) + ((jsRound r : ℚ) - r) := by linarith
    obtain ⟨e1, e2⟩ := jsRound_err_sum q r hsum2
    -- q and r are then half-integers, so s is an integer and sDiff = 0
    have hsint : s = ((1 - jsRound q - jsRound r : Int) : ℚ) := by push_cast; linarith
    have hrs : jsRound s = 1 - jsRound q - jsRound r := by rw [hsint, jsRound_intCast]
    have hsd : |(jsRound s : ℚ) - s| = 0 := by
      rw [hrs, hsint]
      push_cast
      rw [abs_eq_zero]
      ring
    push_neg at h2
    rw [hsd] at h2
    have hrd : (0:ℚ) < |(jsRound r : ℚ) - r| := by rw [e2]; norm_num
    linarith

/-- Claim C2: on a zero-sum fractional cube triple (as produced by
`pixelToHex` via `roundHex` and by the line interpolation of `getHexLine`),
the rounding routine rounds every coordinate to the nearest integer and then
recomputes the coordinate with the (weakly) largest rounding error from the
other two, so the resulting triple sums to zero exactly; the axial result is
its `(q, r)` part, so its derived `s = -q-r` is the corrected third
coordinate, and `roundHex` is `roundCube` on `s = -q-r`. -/
theorem claim_C2 (q r s : ℚ) (hsum : q + r + s = 0) :
    (roundCubeTriple q r s).1 + (roundCubeTriple q r s).2.1 + (roundCubeTriple q r s).2.2 = 0 ∧
    roundCube q r s = ⟨(roundCubeTriple q r s).1, (roundCubeTriple q r s).2.1⟩ ∧
    roundHex q r = roundCube q r (-q - r) ∧
    (((roundCubeTriple q r s).1 = -(jsRound r) - jsRound s ∧
        (roundCubeTriple q r s).2.1 = jsRound r ∧ (roundCubeTriple q r s).2.2 = jsRound s ∧
        |(jsRound r : ℚ) - r| ≤ |(jsRound q : ℚ) - q| ∧
        |(jsRound s : ℚ) - s| ≤ |(jsRound q : ℚ) - q|) ∨
      ((roundCubeTriple q r s).1 = jsRound q ∧
        (roundCubeTriple q r s).2.1 = -(jsRound q) - jsRound s ∧
        (roundCubeTriple q r s).2.2 = jsRound s ∧
        |(jsRound q : ℚ) - q| ≤ |(jsRound r : ℚ) - r| ∧
        |(jsRound s : ℚ) - s| ≤ |(jsRound r : ℚ) - r|) ∨
      ((roundCubeTriple q r s).1 = jsRound q ∧
        (roundCubeTriple q r s).2.1 = jsRound r ∧
        (roundCubeTriple q r s).2.2 = -(jsRound q) - jsRound r ∧
        |(jsRound q : ℚ) - q| ≤ |(jsRound s : ℚ) - s| ∧
        |(jsRound r : ℚ) - r| ≤ |(jsRound s : ℚ) - s|)) := by
  refine ⟨?_, ?_, ?_, ?_⟩
  · unfold roundCubeTriple
    dsimp only
    split_ifs <;> ring
  · unfold roundCubeTriple roundCube
    dsimp only
    split_ifs <;> rfl
  · rfl
  · unfold roundCubeTriple
    dsimp only
    split_ifs with h1 h2
    · exact Or.inl ⟨rfl, rfl, rfl, le_of_lt h1.1, le_of_lt h1.2⟩
    · refine Or.inr (Or.inl ⟨rfl, rfl, rfl, ?_, le_of_lt h2⟩)
      push_neg at h1
      rcases le_or_lt (|(jsRound q : ℚ) - q|) (|(jsRound r : ℚ) - r|) with h | h
      · exact h
      · linarith [h1 h]
    · push_neg at h1 h2
      refine Or.inr (Or.inr ⟨rfl, rfl, rfl, ?_, h2⟩)
      rcases le_or_lt (|(jsRound q : ℚ) - q|) (|(jsRound r : ℚ) - r|) with h | h
      · linarith
      · exact h1 h

theorem claim_C2_witness :
    ((1 : ℚ) / 2 + (1 : ℚ) / 3 + (-(5 : ℚ) / 6) = 0) ∧
      ((roundCubeTriple (1 / 2) (1 / 3) (-(5) / 6)).1 +
          (roundCubeTriple (1 / 2) (1 / 3) (-(5) / 6)).2.1 +
          (roundCubeTriple (1 / 2) (1 / 3) (-(5) / 6)).2.2 = 0) ∧
      roundCube (1 / 2) (1 / 3) (-(5) / 6) =
        ⟨(roundCubeTriple (1 / 2) (1 / 3) (-(5) / 6)).1,
          (roundCubeTriple (1 / 2) (1 / 3) (-(5) / 6)).2.1⟩ :=
  ⟨by norm_num, (claim_C2 (1 / 2) (1 / 3) (-(5) / 6) (by norm_num)).1,
    (claim_C2 (1 / 2) (1 / 3) (-(5) / 6) (by norm_num)).2.1⟩

/-- Interior elements of a mapped `List.range (n+1)` are images of an index
`1 ≤ i ≤ n - 1`. -/
theorem mem_interior_map_range {α : Type} (n : Nat) (f : Nat → α) (x : α)
    (hx : x ∈ (((List.range (n + 1)).map f).drop 1).dropLast) :
    ∃ i, 1 ≤ i ∧ i + 1 ≤ n ∧ x = f i := by
  match n with
  | 0 => simp [List.range_succ] at hx
  | Nat.succ m =>
    rw [List.range_succ_eq_map, List.map_cons, List.drop_succ_cons, List.drop_zero,
      List.map_map, List.range_succ, List.map_append, List.map_singleton,
      List.dropLast_concat] at hx
    rw [List.mem_map] at hx
    obtain ⟨j, hj, rfl⟩ := hx
    rw [List.mem_range] at hj
    exact ⟨j + 1, by omega, by omega, rfl⟩

/-- A point within distance 1 of the `i`-th of `N+1` evenly spaced samples of
a segment with `|B - A| = N` differs from both endpoints when `1 ≤ i ≤ N-1`. -/
theorem interp_sample_ne_ends (A B : ℚ) (N i : Nat) (hN : (N : ℚ) ≠ 0)
    (habs : |B - A| = (N : ℚ)) (h1 : 1 ≤ i) (h2 : i + 1 ≤ N) (x : ℚ)
    (hclose : |x - (A + (B - A) * ((i : ℚ) / (N : ℚ)))| < 1) : x ≠ A ∧ x ≠ B := by
  have hiN : (i : ℚ) ≤ (N : ℚ) := by
    have : (i : Nat) ≤ N := by omega
    exact_mod_cast this
  have hi1 : (1 : ℚ) ≤ (i : ℚ) := by exact_mod_cast h1
  have hiN1 : (i : ℚ) + 1 ≤ (N : ℚ) := by exact_mod_cast h2
  have hNpos : (0 : ℚ) < N := lt_of_lt_of_le (by linarith) hiN
  have hfrac : (N : ℚ) * ((i : ℚ) / (N : ℚ)) = (i : ℚ) := by
    field_simp
  constructor
  · intro hxA
    rw [hxA] at hclose
    have he : A - (A + (B - A) * ((i : ℚ) / (N : ℚ))) = -((B - A) * ((i : ℚ) / (N : ℚ))) := by
      ring
    rw [he, abs_neg, abs_mul, habs, abs_of_nonneg (by positivity), hfrac] at hclose
    linarith
  · intro hxB
    rw [hxB] at hclose
    have he : B - (A + (B - A) * ((i : ℚ) / (N : ℚ))) = (B - A) * (1 - (i : ℚ) / (N : ℚ)) := by
      ring
    have hnn : (0 : ℚ) ≤ 1 - (i : ℚ) / (N : ℚ) := by
      rw [sub_nonneg, div_le_one hNpos]
      linarith
    rw [he, abs_mul, habs, abs_of_nonneg hnn, mul_sub, mul_one, hfrac] at hclose
    linarith

/-- No interior sample of a hex line coincides with either endpoint. -/
theorem getHexLine_interior_ne (q1 r1 q2 r2 : Int) (hex : Hex)
    (hmem : hex ∈ ((getHexLine q1 r1 q2 r2).drop 1).dropLast) :
    hex ≠ ⟨q1, r1⟩ ∧ hex ≠ ⟨q2, r2⟩ := by
  unfold getHexLine at hmem
  by_cases h0 : getDistance q1 r1 q2 r2 = 0
  · rw [if_pos h0] at hmem
    simp at hmem
  · rw [if_neg h0] at hmem
    dsimp only at hmem
    obtain ⟨i, hi1, hi2, rfl⟩ :=
      mem_interior_map_range (getDistance q1 r1 q2 r2) _ hex hmem
    have hNQ : ((getDistance q1 r1 q2 r2 : Nat) : ℚ) ≠ 0 := by
      rw [Nat.cast_ne_zero]
      exact h0
    have hsum : ((q1 : ℚ) + ((q2 : ℚ) - (q1 : ℚ)) * ((i : ℚ) / ((getDistance q1 r1 q2 r2 : Nat) : ℚ))) +
        ((r1 : ℚ) + ((r2 : ℚ) - (r1 : ℚ)) * ((i : ℚ) / ((getDistance q1 r1 q2 r2 : Nat) : ℚ))) +
        (((-q1 - r1 : Int) : ℚ) + (((-q2 - r2 : Int) : ℚ) - ((-q1 - r1 : Int) : ℚ)) *
          ((i : ℚ) / ((getDistance q1 r1 q2 r2 : Nat) : ℚ))) = 0 := by
      push_cast
      ring
    have hclose := roundCube_close _ _ _ hsum
    have hcases : getDistance q1 r1 q2 r2 = (q1 - q2).natAbs ∨
        getDistance q1 r1 q2 r2 = (r1 - r2).natAbs ∨
        getDistance q1 r1 q2 r2 = (q1 + r1 - q2 - r2).natAbs := by
      have := getDistance_eq_max q1 r1 q2 r2
      omega
    rcases hcases with hc | hc | hc
    · -- the q-coordinate moves by the full distance
      have habs : |(q2 : ℚ) - (q1 : ℚ)| = ((getDistance q1 r1 q2 r2 : Nat) : ℚ) := by
        have e1 : (q2 : ℚ) - (q1 : ℚ) = -(((q1 - q2 : Int)) : ℚ) := by push_cast; ring
        rw [hc, Int.cast_natAbs, e1, abs_neg, Int.cast_abs]
      have hne := interp_sample_ne_ends (q1 : ℚ) (q2 : ℚ) (getDistance q1 r1 q2 r2) i hNQ habs
        hi1 hi2 _ hclose.1
      constructor
      · intro hcon
        exact hne.1 (by rw [hcon])
      · intro hcon
        exact hne.2 (by rw [hcon])
    · -- the r-coordinate moves by the full distance
      have habs : |(r2 : ℚ) - (r1 : ℚ)| = ((getDistance q1 r1 q2 r2 : Nat) : ℚ) := by
        have e1 : (r2 : ℚ) - (r1 : ℚ) = -(((r1 - r2 : Int)) : ℚ) := by push_cast; ring
        rw [hc, Int.cast_natAbs, e1, abs_neg, Int.cast_abs]
      have hne := interp_sample_ne_ends (r1 : ℚ) (r2 : ℚ) (getDistance q1 r1 q2 r2) i hNQ habs
        hi1 hi2 _ hclose.2.1
      constructor
      · intro hcon
        exact hne.1 (by rw [hcon])
      · intro hcon
        exact hne.2 (by rw [hcon])
    · -- the s-coordinate moves by the full distance
      have habs : |((-q2 - r2 : Int) : ℚ) - ((-q1 - r1 : Int) : ℚ)| =
          ((getDistance q1 r1 q2 r2 : Nat) : ℚ) := by
        have e1 : ((-q2 - r2 : Int) : ℚ) - ((-q1 - r1 : Int) : ℚ) =
            (((q1 + r1 - q2 - r2 : Int)) : ℚ) := by push_cast; ring
        rw [hc, Int.cast_natAbs, e1, Int.cast_abs]
      have hne := interp_sample_ne_ends ((-q1 - r1 : Int) : ℚ) ((-q2 - r2 : Int) : ℚ)
        (getDistance q1 r1 q2 r2) i hNQ habs hi1 hi2 _ hclose.2.2
      constructor
      · intro hcon
        apply hne.1
        rw [hcon]
      · intro hcon
        apply hne.2
        rw [hcon]

theorem hasLineOfSight_empty (q1 r1 q2 r2 : Int) : hasLineOfSight q1 r1 q2 r2 [] = true := by
  unfold hasLineOfSight
  split_ifs with h
  · rfl
  · dsimp only
    rw [List.all_eq_true]
    intro hex _
    rfl

theorem hasLineOfSight_same (q r : Int) (blockers : List Hex) :
    hasLineOfSight q r q r blockers = true := by
  unfold hasLineOfSight
  rw [if_pos ⟨rfl, rfl⟩]

theorem hasLineOfSight_blocked (q1 r1 q2 r2 : Int) (blockers : List Hex) (hex : Hex)
    (hmem : hex ∈ ((getHexLine q1 r1 q2 r2).drop 1).dropLast) (hb : hex ∈ blockers) :
    hasLineOfSight q1 r1 q2 r2 blockers = false := by
  have hane : (blockers.any fun b => b.q == hex.q && b.r == hex.r) = true :=
    List.any_eq_true.mpr ⟨hex, hb, by simp⟩
  unfold hasLineOfSight
  split_ifs with h
  · exfalso
    obtain ⟨hq, hr⟩ := h
    subst hq; subst hr
    unfold getHexLine at hmem
    rw [if_pos (getDistance_self q1 r1)] at hmem
    simp at hmem
  · dsimp only
    rw [Bool.eq_false_iff]
    intro hall
    have hx := List.all_eq_true.mp hall hex hmem
    rw [hane] at hx
    simp at hx

theorem hasLineOfSight_filter_endpoints (q1 r1 q2 r2 : Int) (blockers : List Hex) :
    hasLineOfSight q1 r1 q2 r2
        (blockers.filter fun h => !(h == Hex.mk q1 r1 || h == Hex.mk q2 r2)) =
      hasLineOfSight q1 r1 q2 r2 blockers := by
  unfold hasLineOfSight
  split_ifs with h
  · rfl
  · dsimp only
    rw [Bool.eq_iff_iff, List.all_eq_true, List.all_eq_true]
    constructor
    · intro hall hex hmem
      have hne := getHexLine_interior_ne q1 r1 q2 r2 hex hmem
      have hfil := hall hex hmem
      rw [Bool.not_eq_eq_eq_not, Bool.not_true] at hfil ⊢
      rw [Bool.eq_false_iff] at hfil ⊢
      intro hany
      apply hfil
      rw [List.any_eq_true] at hany ⊢
      obtain ⟨b, hbmem, hbeq⟩ := hany
      refine ⟨b, ?_, hbeq⟩
      rw [List.mem_filter]
      refine ⟨hbmem, ?_⟩
      simp only [Bool.and_eq_true, beq_iff_eq] at hbeq
      have hbhex : b = hex := by
        cases b; cases hex
        simp only [Hex.mk.injEq]
        exact hbeq
      subst hbhex
      simp only [Bool.not_eq_eq_eq_not, Bool.not_true, Bool.or_eq_false_iff, beq_eq_false_iff_ne]
      exact ⟨hne.1, hne.2⟩
    · intro hall hex hmem
      have hfil := hall hex hmem
      rw [Bool.not_eq_eq_eq_not, Bool.not_true] at hfil ⊢
      rw [Bool.eq_false_iff] at hfil ⊢
      intro hany
      apply hfil
      rw [List.any_eq_true] at hany ⊢
      obtain ⟨b, hbmem, hbeq⟩ := hany
      exact ⟨b, (List.mem_filter.mp hbmem).1, hbeq⟩

/-- Claim C4: line of sight is clear for every pair under an empty blocker
set; the same-coordinate case holds for every blocker set; blockers at the
two endpoints never change the result; and a blocker at any interior sample
of the interpolated hex line forces the result to `false`. -/
theorem claim_C4 (q1 r1 q2 r2 : Int) (blockers : List Hex) :
    hasLineOfSight q1 r1 q2 r2 [] = true ∧
    (q1 = q2 → r1 = r2 → hasLineOfSight q1 r1 q2 r2 blockers = true) ∧
    hasLineOfSight q1 r1 q2 r2
        (blockers.filter fun h => !(h == Hex.mk q1 r1 || h == Hex.mk q2 r2)) =
      hasLineOfSight q1 r1 q2 r2 blockers ∧
    (∀ hex ∈ ((getHexLine q1 r1 q2 r2).drop 1).dropLast, hex ∈ blockers →
      hasLineOfSight q1 r1 q2 r2 blockers = false) := by
  refine ⟨hasLineOfSight_empty q1 r1 q2 r2, ?_, hasLineOfSight_filter_endpoints q1 r1 q2 r2 blockers, ?_⟩
  · rintro rfl rfl
    exact hasLineOfSight_same q1 r1 blockers
  · intro hex hmem hb
    exact hasLineOfSight_blocked q1 r1 q2 r2 blockers hex hmem hb

theorem claim_C4_witness :
    hasLineOfSight 0 0 2 0 [] = true ∧
      hasLineOfSight 3 3 3 3 [⟨3, 3⟩] = true ∧
      hasLineOfSight 0 0 2 0 [⟨1, 0⟩] = false :=
  ⟨(claim_C4 0 0 2 0 []).1, (claim_C4 3 3 3 3 [⟨3, 3⟩]).2.1 rfl rfl,
    (claim_C4 0 0 2 0 [⟨1, 0⟩]).2.2.2 ⟨1, 0⟩
      (by
        have hline : getHexLine 0 0 2 0 = [⟨0, 0⟩, ⟨1, 0⟩, ⟨2, 0⟩] := by
          norm_num [getHexLine, getDistance, roundCube, jsRound, List.range_succ]
        rw [hline]
        decide)
      (by decide)⟩

/-- Claim C5 (counterexample): at the board edge there are coordinate pairs
at distance 1 whose second member is not a neighbour, because `getNeighbors`
filters to valid board hexes. -/
theorem claim_C5_counterexample :
    getDistance 5 0 6 0 = 1 ∧ Hex.mk 6 0 ∉ getNeighbors 5 5 0 := by decide

/-- Claim C5 (amended): `distance(a,a) = 0`, `distance` is symmetric, and for
every `b` that lies on the board, `distance(a,b) = 1` iff `b ∈ neighbors(a)`.
(For off-board `b` at distance 1 the membership direction fails, as
`getNeighbors` keeps only valid hexes.) -/
theorem claim_C5 (radius : Nat) (a b : Hex) (hb : isValidHex radius b.q b.r = true) :
    getDistance a.q a.r a.q a.r = 0 ∧
    getDistance a.q a.r b.q b.r = getDistance b.q b.r a.q a.r ∧
    (getDistance a.q a.r b.q b.r = 1 ↔ b ∈ getNeighbors radius a.q a.r) := by
  refine ⟨getDistance_self _ _, getDistance_comm _ _ _ _, ?_⟩
  rw [getDistance_eq_one_iff, getNeighbors_mem]
  constructor
  · rintro ⟨d, hd, hh⟩
    exact ⟨⟨d, hd, hh⟩, hb⟩
  · rintro ⟨⟨d, hd, hh⟩, _⟩
    exact ⟨d, hd, hh⟩

theorem claim_C5_witness :
    isValidHex 5 1 0 = true ∧
      (getDistance 0 0 1 0 = 1 ↔ Hex.mk 1 0 ∈ getNeighbors 5 0 0) :=
  ⟨by decide, (claim_C5 5 ⟨0, 0⟩ ⟨1, 0⟩ (by decide)).2.2⟩

theorem takeDamage_inv (e : EnemyRec) (a : Int) :
    (takeDamage e a).hp = 0 → (takeDamage e a).isAlive = false := by
  unfold takeDamage
  dsimp only
  split_ifs with h
  · intro _
    rfl
  · intro h0
    dsimp only at h h0
    omega

/-- Claim C10: when the attack precondition fails, `attackPlayer` is a
complete no-op (action points, attack counter and player hit points are all
unchanged — indeed the whole state is). -/
theorem claim_C10 (st : BattleState)
    (h : st.enemy.maxAttacksPerTurn ≤ st.enemy.attacksThisTurn ∨ st.enemy.ap < 1) :
    attackPlayer st = st := by
  have hca : canAttack st.enemy = false := by
    unfold canAttack
    rcases h with h | h
    · have : ¬(st.enemy.attacksThisTurn < st.enemy.maxAttacksPerTurn) := by omega
      simp [this]
    · have : ¬(st.enemy.ap ≥ 1) := by omega
      simp [this]
  unfold attackPlayer
  rw [hca]
  simp

theorem claim_C10_witness : attackPlayer spentMeleeScenario = spentMeleeScenario :=
  claim_C10 spentMeleeScenario (Or.inr (by decide))

/-- Claim C9: damage sequences preserve the `hp = 0 → dead` invariant, and
the obstacle set assembled for movement ignores dead units (filtering the
dead out of the scene first does not change it). -/
theorem claim_C9 (e : EnemyRec) (amounts : List Int) (st : BattleState)
    (hinv : e.hp = 0 → e.isAlive = false) :
    ((amounts.foldl takeDamage e).hp = 0 → (amounts.foldl takeDamage e).isAlive = false) ∧
    getObstacles st = getObstacles { st with others := st.others.filter (fun o => o.isAlive) } := by
  constructor
  · induction amounts generalizing e with
    | nil => exact hinv
    | cons a rest ih =>
      rw [List.foldl_cons]
      exact ih (takeDamage e a) (takeDamage_inv e a)
  · unfold getObstacles
    simp [List.filter_filter]

theorem claim_C9_witness :
    ((([7] : List Int).foldl takeDamage meleeEnemyAt20).hp = 0 →
      (([7] : List Int).foldl takeDamage meleeEnemyAt20).isAlive = false) ∧
    getObstacles meleeScenario =
      getObstacles { meleeScenario with
        others := meleeScenario.others.filter (fun o => o.isAlive) } :=
  claim_C9 meleeEnemyAt20 [7] meleeScenario (by decide)

theorem bestRetreat_fold_spec (st : BattleState) (cands : List Hex) :
    ∀ (accOpt : Option Hex) (accD : Nat),
      (cands.foldl
          (fun acc n =>
            let dist := getDistance n.q n.r st.playerPos.q st.playerPos.r
            if dist > acc.2 then (some n, dist) else acc)
          (accOpt, accD) = (accOpt, accD) ∧
        ∀ n ∈ cands, getDistance n.q n.r st.playerPos.q st.playerPos.r ≤ accD) ∨
      (∃ c l1 l2, cands = l1 ++ c :: l2 ∧
        cands.foldl
          (fun acc n =>
            let dist := getDistance n.q n.r st.playerPos.q st.playerPos.r
            if dist > acc.2 then (some n, dist) else acc)
          (accOpt, accD) = (some c, getDistance c.q c.r st.playerPos.q st.playerPos.r) ∧
        accD < getDistance c.q c.r st.playerPos.q st.playerPos.r ∧
        (∀ n ∈ l1, getDistance n.q n.r st.playerPos.q st.playerPos.r <
          getDistance c.q c.r st.playerPos.q st.playerPos.r) ∧
        (∀ n ∈ l2, getDistance n.q n.r st.playerPos.q st.playerPos.r ≤
          getDistance c.q c.r st.playerPos.q st.playerPos.r)) := by
  induction cands with
  | nil =>
    intro accOpt accD
    left
    exact ⟨rfl, by simp⟩
  | cons n0 rest ih =>
    intro accOpt accD
    simp only [List.foldl_cons]
    by_cases h0 : getDistance n0.q n0.r st.playerPos.q st.playerPos.r > accD
    · rw [if_pos h0]
      rcases ih (some n0) (getDistance n0.q n0.r st.playerPos.q st.playerPos.r) with
        ⟨heq, hall⟩ | ⟨c, l1, l2, hsplit, heq, hlt, hl1, hl2⟩
      · right
        refine ⟨n0, [], rest, by simp, heq, h0, by simp, hall⟩
      · right
        refine ⟨c, n0 :: l1, l2, by rw [hsplit]; simp, heq, lt_trans h0 hlt, ?_, hl2⟩
        intro n hn
        rcases List.mem_cons.mp hn with rfl | hn
        · exact hlt
        · exact hl1 n hn
    · rw [if_neg h0]
      rcases ih accOpt accD with ⟨heq, hall⟩ | ⟨c, l1, l2, hsplit, heq, hlt, hl1, hl2⟩
      · left
        refine ⟨heq, ?_⟩
        intro n hn
        rcases List.mem_cons.mp hn with rfl | hn
        · omega
        · exact hall n hn
      · right
        refine ⟨c, n0 :: l1, l2, by rw [hsplit]; simp, heq, hlt, ?_, hl2⟩
        intro n hn
        rcases List.mem_cons.mp hn with rfl | hn
        · omega
        · exact hl1 n hn

/-- Claim C8: a retreat step moves only to a valid, unobstructed neighbour
strictly farther from the target, namely the first neighbour (in the fixed
direction order) attaining the maximum distance; when no neighbour strictly
improves the distance, nothing moves and the retreat loop stops. -/
theorem claim_C8 (R : Nat) (st : BattleState) :
    ((∀ n ∈ retreatCandidates R st,
        getDistance n.q n.r st.playerPos.q st.playerPos.r ≤ getDistanceToPlayer st) →
      moveAwayFromPlayer R st = (false, st) ∧
      ∀ fuel dist, rangedRetreat R fuel dist st = st) ∧
    ((∃ n ∈ retreatCandidates R st,
        getDistanceToPlayer st < getDistance n.q n.r st.playerPos.q st.playerPos.r) →
      ∃ c l1 l2,
        moveAwayFromPlayer R st = (true, moveTo st c.q c.r) ∧
        retreatCandidates R st = l1 ++ c :: l2 ∧
        getDistanceToPlayer st < getDistance c.q c.r st.playerPos.q st.playerPos.r ∧
        (∀ n ∈ l1, getDistance n.q n.r st.playerPos.q st.playerPos.r <
          getDistance c.q c.r st.playerPos.q st.playerPos.r) ∧
        (∀ n ∈ l2, getDistance n.q n.r st.playerPos.q st.playerPos.r ≤
          getDistance c.q c.r st.playerPos.q st.playerPos.r)) := by
  have hspec := bestRetreat_fold_spec st (retreatCandidates R st) none (getDistanceToPlayer st)
  constructor
  · intro hall
    have hmove : moveAwayFromPlayer R st = (false, st) := by
      unfold moveAwayFromPlayer
      dsimp only
      split_ifs with hlen
      · rfl
      · rcases hspec with ⟨heq, _⟩ | ⟨c, l1, l2, hsplit, heq, hlt, _, _⟩
        · unfold bestRetreat
          rw [heq]
        · exfalso
          have hc : c ∈ retreatCandidates R st := by
            rw [hsplit]
            simp
          exact absurd (hall c hc) (by omega)
    refine ⟨hmove, ?_⟩
    intro fuel dist
    cases fuel with
    | zero => rfl
    | succ n =>
      unfold rangedRetreat
      split_ifs with hcond
      · rw [hmove]
      · rfl
  · rintro ⟨n, hn, hd⟩
    rcases hspec with ⟨heq, hall⟩ | ⟨c, l1, l2, hsplit, heq, hlt, hl1, hl2⟩
    · exact absurd (hall n hn) (by omega)
    · refine ⟨c, l1, l2, ?_, hsplit, hlt, hl1, hl2⟩
      unfold moveAwayFromPlayer
      dsimp only
      split_ifs with hlen
      · exfalso
        rw [List.length_eq_zero] at hlen
        rw [hlen] at hn
        exact absurd hn (List.not_mem_nil n)
      · unfold bestRetreat
        rw [heq]

theorem claim_C8_witness :
    ∃ c l1 l2,
      moveAwayFromPlayer 5 rangedScenario = (true, moveTo rangedScenario c.q c.r) ∧
      retreatCandidates 5 rangedScenario = l1 ++ c :: l2 ∧
      getDistanceToPlayer rangedScenario <
        getDistance c.q c.r rangedScenario.playerPos.q rangedScenario.playerPos.r ∧
      (∀ n ∈ l1, getDistance n.q n.r rangedScenario.playerPos.q rangedScenario.playerPos.r <
        getDistance c.q c.r rangedScenario.playerPos.q rangedScenario.playerPos.r) ∧
      (∀ n ∈ l2, getDistance n.q n.r rangedScenario.playerPos.q rangedScenario.playerPos.r ≤
        getDistance c.q c.r rangedScenario.playerPos.q rangedScenario.playerPos.r) :=
  (claim_C8 5 rangedScenario).2 ⟨⟨4, 0⟩, by decide, by decide⟩

theorem rangedApproach_stop (R fuel dist : Nat) (los : Bool) (st : BattleState)
    (h : ¬((dist > st.enemy.range ∨ los = false) ∧ st.enemy.ap ≥ 1 ∧
      st.enemy.isAlive = true ∧ st.battleOver = false)) :
    rangedApproach R fuel dist los st = (dist, los, st) := by
  cases fuel with
  | zero => rfl
  | succ n =>
    unfold rangedApproach
    rw [if_neg h]

theorem rangedRetreat_stop (R fuel dist : Nat) (st : BattleState)
    (h : ¬(dist < st.enemy.preferredDistance ∧ st.enemy.ap ≥ 1 ∧
      st.enemy.isAlive = true ∧ st.battleOver = false)) :
    rangedRetreat R fuel dist st = st := by
  cases fuel with
  | zero => rfl
  | succ n =>
    unfold rangedRetreat
    rw [if_neg h]

theorem attackPlayer_effect (st : BattleState) (h : canAttack st.enemy = true) :
    (attackPlayer st).enemy.pos = st.enemy.pos ∧
    (attackPlayer st).enemy.ap = st.enemy.ap - 1 ∧
    (attackPlayer st).enemy.attacksThisTurn = st.enemy.attacksThisTurn + 1 ∧
    (attackPlayer st).enemy.range = st.enemy.range ∧
    (attackPlayer st).enemy.preferredDistance = st.enemy.preferredDistance ∧
    (attackPlayer st).enemy.isAlive = st.enemy.isAlive ∧
    (attackPlayer st).playerPos = st.playerPos ∧
    (attackPlayer st).events = st.events ++ [BattleAction.attack] := by
  unfold attackPlayer
  rw [if_pos h]
  unfold damagePlayer
  dsimp only
  split_ifs <;> exact ⟨rfl, rfl, rfl, rfl, rfl, rfl, rfl, rfl⟩

/-- Claim C6: a ranged enemy at distance 3 with range 3, preferred distance
3, full action points, line of sight and no attacks used makes zero approach
moves, exactly one attack (even though `maxAttacksPerTurn ≥ 2` and the
remaining points would allow more), zero retreat moves, and ends with
exactly 2 action points. -/
theorem claim_C6 (R : Nat) (st : BattleState)
    (hdist : getDistanceToPlayer st = 3)
    (hrange : st.enemy.range = 3)
    (hpref : st.enemy.preferredDistance = 3)
    (hap : st.enemy.ap = 3)
    (hatt : st.enemy.attacksThisTurn = 0)
    (hmax : 2 ≤ st.enemy.maxAttacksPerTurn)
    (hlos : hasLineOfSightToPlayer st = true)
    (halive : st.enemy.isAlive = true)
    (hover : st.battleOver = false) :
    (executeRangedTurn R st).events = st.events ++ [BattleAction.attack] ∧
    (executeRangedTurn R st).enemy.ap = 2 ∧
    (executeRangedTurn R st).enemy.attacksThisTurn = 1 ∧
    (executeRangedTurn R st).enemy.pos = st.enemy.pos := by
  have happroach := rangedApproach_stop R (st.enemy.ap.toNat + 1) (getDistanceToPlayer st)
    (hasLineOfSightToPlayer st) st
    (by
      rw [hdist, hrange, hlos]
      simp)
  have hca : canAttack st.enemy = true := by
    unfold canAttack
    rw [hatt, hap]
    simp only [Bool.and_eq_true, decide_eq_true_eq]
    omega
  obtain ⟨hp1, hp2, hp3, hp4, hp5, hp6, hp7, hp8⟩ := attackPlayer_effect st hca
  have hdist2 : getDistanceToPlayer (attackPlayer st) = 3 := by
    unfold getDistanceToPlayer
    rw [hp1, hp7]
    exact hdist
  have hretreat := rangedRetreat_stop R ((attackPlayer st).enemy.ap.toNat + 1)
    (getDistanceToPlayer (attackPlayer st)) (attackPlayer st)
    (by
      rw [hdist2, hp5, hpref]
      simp)
  unfold executeRangedTurn
  rw [happroach]
  dsimp only
  rw [if_pos ⟨hca, by rw [hdist, hrange], hlos, halive, hover⟩]
  dsimp only
  rw [hretreat]
  exact ⟨hp8, by rw [hp2, hap]; decide, by rw [hp3, hatt], hp1⟩

theorem claim_C6_witness :
    (executeRangedTurn 5 rangedScenario).events = [BattleAction.attack] ∧
    (executeRangedTurn 5 rangedScenario).enemy.ap = 2 ∧
    (executeRangedTurn 5 rangedScenario).enemy.attacksThisTurn = 1 ∧
    (executeRangedTurn 5 rangedScenario).enemy.pos = rangedScenario.enemy.pos := by
  have h := claim_C6 5 rangedScenario (by decide) rfl rfl rfl rfl (by decide)
    (hasLineOfSight_empty 3 0 0 0) rfl rfl
  simpa using h

/-- Claim C7 (counterexample): from `(2,0)` the hex distance to `(0,0)` is
2, so the melee turn makes one move (to `(1,0)`) and then, adjacent with 2
action points and `maxAttacksPerTurn = 2`, attacks twice — not "2 moves then
1 attack". -/
theorem claim_C7_counterexample :
    (executeMeleeTurn 5 meleeScenario).events =
      [BattleAction.move ⟨1, 0⟩, BattleAction.attack, BattleAction.attack] ∧
    (executeMeleeTurn 5 meleeScenario).events.countP
        (fun a => match a with | BattleAction.move _ => true | _ => false) ≠ 2 := by
  constructor
  · rfl
  · decide

/-- Claim C7 (amended): melee enemy at `(2,0)`, target `(0,0)`, 3 action
points, `maxAttacksPerTurn = 2`, no obstacles: the turn performs exactly one
move action (to `(1,0)`, closing to distance 1) followed by exactly two
attacks, and ends with 0 action points. -/
theorem claim_C7 :
    (executeMeleeTurn 5 meleeScenario).events =
      [BattleAction.move ⟨1, 0⟩, BattleAction.attack, BattleAction.attack] ∧
    (executeMeleeTurn 5 meleeScenario).enemy.ap = 0 ∧
    (executeMeleeTurn 5 meleeScenario).enemy.attacksThisTurn = 2 ∧
    (executeMeleeTurn 5 meleeScenario).enemy.pos = ⟨1, 0⟩ ∧
    (executeMeleeTurn 5 meleeScenario).playerHP = 16 := by
  refine ⟨rfl, rfl, rfl, rfl, rfl⟩

theorem lookupMap_cons {α : Type} (k : Hex) (v : α) (m : List (Hex × α)) (x : Hex) :
    lookupMap ((k, v) :: m) x = if k = x then some v else lookupMap m x := by
  unfold lookupMap
  by_cases h : k = x
  · subst h
    rw [List.find?_cons_of_pos _ (by simp)]
    rw [if_pos rfl]
    rfl
  · rw [List.find?_cons_of_neg _ (by simp [h])]
    rw [if_neg h]

theorem insertByF_none_none (x : Hex × Option Nat) (l : List (Hex × Option Nat))
    (hx : x.2 = none) (hl : ∀ e ∈ l, e.2 = none) : insertByF x l = x :: l := by
  cases l with
  | nil => rfl
  | cons y ys =>
    unfold insertByF
    rw [if_pos]
    rw [hx, hl y (by simp)]
    rfl

theorem sortByF_of_all_none (l : List (Hex × Option Nat)) (h : ∀ e ∈ l, e.2 = none) :
    sortByF l = l := by
  induction l with
  | nil => rfl
  | cons x xs ih =>
    unfold sortByF
    rw [ih (fun e he => h e (List.mem_cons_of_mem _ he))]
    exact insertByF_none_none x xs (h x (by simp))
      (fun e he => h e (List.mem_cons_of_mem _ he))

theorem getNeighbors_nodup (R : Nat) (q r : Int) : (getNeighbors R q r).Nodup := by
  unfold getNeighbors
  apply List.Nodup.filter
  apply List.Nodup.map
  · intro a b hab
    cases a
    cases b
    simp only [Hex.mk.injEq] at hab ⊢
    omega
  · unfold directions
    decide

theorem self_not_mem_getNeighbors (R : Nat) (q r : Int) :
    Hex.mk q r ∉ getNeighbors R q r := by
  intro h
  rw [getNeighbors_mem] at h
  obtain ⟨⟨d, hd, hh⟩, _⟩ := h
  simp only [directions, List.mem_cons, List.not_mem_nil, or_false] at hd
  rcases hd with rfl | rfl | rfl | rfl | rfl | rfl <;>
    (rw [Hex.mk.injEq] at hh; dsimp only at hh; omega)

theorem getNeighbors_symm (R : Nat) (a b : Hex) (ha : isValidHex R a.q a.r = true)
    (hb : b ∈ getNeighbors R a.q a.r) : a ∈ getNeighbors R b.q b.r := by
  rw [getNeighbors_mem] at hb ⊢
  obtain ⟨⟨d, hd, rfl⟩, hv⟩ := hb
  refine ⟨⟨⟨-d.q, -d.r⟩, ?_, ?_⟩, ha⟩
  · simp only [directions, List.mem_cons, List.not_mem_nil, or_false] at hd ⊢
    rcases hd with rfl | rfl | rfl | rfl | rfl | rfl <;> simp
  · cases a
    simp only [Hex.mk.injEq]
    constructor <;> (dsimp only; omega)

theorem getDistance_eq_zero_iff (q1 r1 q2 r2 : Int) :
    getDistance q1 r1 q2 r2 = 0 ↔ q1 = q2 ∧ r1 = r2 := by
  unfold getDistance
  omega

theorem mem_getNeighbors_layer (R : Nat) (c : Hex) (x : Hex) (p : Hex)
    (hx : x ∈ getNeighbors R p.q p.r) :
    getDistance p.q p.r c.q c.r ≤ getDistance x.q x.r c.q c.r + 1 ∧
    getDistance x.q x.r c.q c.r ≤ getDistance p.q p.r c.q c.r + 1 := by
  rw [getNeighbors_mem] at hx
  obtain ⟨⟨d, hd, rfl⟩, _⟩ := hx
  have := getDistance_step_le p.q p.r c.q c.r d hd
  exact ⟨this.2, this.1⟩

theorem intRange_length (lo hi : Int) : (intRange lo hi).length = (hi + 1 - lo).toNat := by
  unfold intRange
  rw [List.length_map, List.length_range]

theorem squareList_length (R : Nat) :
    (squareList R).length = (2 * R + 1) * (2 * R + 1) := by
  unfold squareList
  have hlen : (intRange (-(R : Int)) R).length = 2 * R + 1 := by
    rw [intRange_length]
    omega
  rw [List.length_flatMap]
  have hmap : ∀ q : Int, ((intRange (-(R : Int)) R).map (fun r => Hex.mk q r)).length
      = 2 * R + 1 := by
    intro q
    rw [List.length_map, hlen]
  calc ((intRange (-(R : Int)) R).map
        (fun q => ((intRange (-(R : Int)) R).map (fun r => Hex.mk q r)).length)).sum
      = ((intRange (-(R : Int)) R).map (fun _ => 2 * R + 1)).sum := by
        congr 1
        exact List.map_congr_left (fun q _ => hmap q)
    _ = (2 * R + 1) * (2 * R + 1) := by
        rw [List.map_const', List.sum_replicate, smul_eq_mul, hlen]

theorem mem_squareList_of_valid (R : Nat) (x : Hex) (h : isValidHex R x.q x.r = true) :
    x ∈ squareList R := by
  rw [isValidHex_iff] at h
  unfold squareList
  rw [List.mem_flatMap]
  refine ⟨x.q, by rw [intRange_mem]; omega, ?_⟩
  rw [List.mem_map]
  exact ⟨x.r, by rw [intRange_mem]; omega, by cases x; rfl⟩

theorem nodup_length_le_square (R : Nat) (s0 : Hex) (l : List Hex) (hnd : l.Nodup)
    (hsub : ∀ x ∈ l, x = s0 ∨ isValidHex R x.q x.r = true) :
    l.length ≤ 1 + (2 * R + 1) * (2 * R + 1) := by
  have hss : l ⊆ s0 :: squareList R := by
    intro x hx
    rcases hsub x hx with rfl | hv
    · exact List.mem_cons_self x _
    · exact List.mem_cons_of_mem _ (mem_squareList_of_valid R x hv)
  have := (hnd.subperm hss).length_le
  rw [List.length_cons, squareList_length] at this
  omega

theorem expand_fold_spec (endQ endR : Int) (obstacles : List Hex) (cur : Hex) :
    ∀ (ns : List Hex) (σ : AStarState), ns.Nodup → cur ∉ ns →
      orInfinity (lookupMap σ.gScore cur) = none →
      (∀ e ∈ σ.openSet, (lookupMap σ.gScore e.1).isSome = true) →
      (ns.foldl (expandNeighbor endQ endR obstacles cur) σ).closedSet = σ.closedSet ∧
      (ns.foldl (expandNeighbor endQ endR obstacles cur) σ).openSet =
        σ.openSet ++ (newsOf obstacles σ ns).map (fun n => (n, (none : Option Nat))) ∧
      (∀ x, lookupMap (ns.foldl (expandNeighbor endQ endR obstacles cur) σ).gScore x =
        if x ∈ newsOf obstacles σ ns then some none else lookupMap σ.gScore x) ∧
      (∀ x, lookupMap (ns.foldl (expandNeighbor endQ endR obstacles cur) σ).cameFrom x =
        if x ∈ newsOf obstacles σ ns then some cur else lookupMap σ.cameFrom x) := by
  intro ns
  induction ns with
  | nil =>
    intro σ _ _ _ _
    refine ⟨rfl, by simp [newsOf], fun x => by simp [newsOf], fun x => by simp [newsOf]⟩
  | cons n0 rest ih =>
    intro σ hnd hcur hcurg hopen
    rw [List.foldl_cons]
    have hcur0 : cur ≠ n0 := fun h => hcur (h ▸ List.mem_cons_self n0 rest)
    have hcurrest : cur ∉ rest := fun h => hcur (List.mem_cons_of_mem _ h)
    have hn0rest : n0 ∉ rest := (List.nodup_cons.mp hnd).1
    have hndrest : rest.Nodup := (List.nodup_cons.mp hnd).2
    by_cases hcl : (σ.closedSet.any (fun h => h == n0)) = true
    · -- already closed: no-op
      have hstep : expandNeighbor endQ endR obstacles cur σ n0 = σ := by
        unfold expandNeighbor
        rw [if_pos hcl]
      rw [hstep]
      have hnews : newsOf obstacles σ (n0 :: rest) = newsOf obstacles σ rest := by
        unfold newsOf
        rw [List.filter_cons_of_neg]
        simp [hcl]
      rw [hnews]
      exact ih σ hndrest hcurrest hcurg hopen
    · rw [Bool.not_eq_true] at hcl
      by_cases hbl : isBlocked obstacles n0.q n0.r = true
      · -- blocked: no-op
        have hstep : expandNeighbor endQ endR obstacles cur σ n0 = σ := by
          unfold expandNeighbor
          rw [if_neg (by rw [hcl]; exact Bool.false_ne_true), if_pos hbl]
        rw [hstep]
        have hnews : newsOf obstacles σ (n0 :: rest) = newsOf obstacles σ rest := by
          unfold newsOf
          rw [List.filter_cons_of_neg]
          simp [hbl]
        rw [hnews]
        exact ih σ hndrest hcurrest hcurg hopen
      · rw [Bool.not_eq_true] at hbl
        by_cases hsn : (lookupMap σ.gScore n0).isSome = true
        · -- already seen: the tentative score is Infinity, so no update, no push
          have hstep : expandNeighbor endQ endR obstacles cur σ n0 = σ := by
            unfold expandNeighbor
            rw [if_neg (by rw [hcl]; exact Bool.false_ne_true),
              if_neg (by rw [hbl]; exact Bool.false_ne_true)]
            obtain ⟨v, hv⟩ := Option.isSome_iff_exists.mp hsn
            rw [hcurg]
            rw [hv]
            rfl
          rw [hstep]
          have hnews : newsOf obstacles σ (n0 :: rest) = newsOf obstacles σ rest := by
            unfold newsOf
            rw [List.filter_cons_of_neg]
            simp [hsn]
          rw [hnews]
          exact ih σ hndrest hcurrest hcurg hopen
        · rw [Bool.not_eq_true] at hsn
          -- fresh discovery: bind the parent, store Infinity, push at the back
          have hn0open : (σ.openSet.any (fun n => n.1 == n0)) = false := by
            rw [Bool.eq_false_iff]
            intro hany
            rw [List.any_eq_true] at hany
            obtain ⟨e, he, heq⟩ := hany
            rw [beq_iff_eq] at heq
            have := hopen e he
            rw [heq] at this
            rw [this] at hsn
            exact absurd hsn (by decide)
          have hstep : expandNeighbor endQ endR obstacles cur σ n0 =
              { σ with
                cameFrom := (n0, cur) :: σ.cameFrom,
                gScore := (n0, none) :: σ.gScore,
                fScore := (n0, none) :: σ.fScore,
                openSet := σ.openSet ++ [(n0, none)] } := by
            unfold expandNeighbor
            rw [if_neg (by rw [hcl]; exact Bool.false_ne_true),
              if_neg (by rw [hbl]; exact Bool.false_ne_true)]
            rw [hcurg]
            have hsnone : lookupMap σ.gScore n0 = none :=
              Option.not_isSome_iff_eq_none.mp (by rw [hsn]; exact Bool.false_ne_true)
            rw [hsnone, hn0open]
            rfl
          rw [hstep]
          set σ' : AStarState :=
            { σ with
              cameFrom := (n0, cur) :: σ.cameFrom,
              gScore := (n0, none) :: σ.gScore,
              fScore := (n0, none) :: σ.fScore,
              openSet := σ.openSet ++ [(n0, none)] } with hσ'
          have hg' : ∀ x, lookupMap σ'.gScore x =
              if n0 = x then some none else lookupMap σ.gScore x := by
            intro x
            exact lookupMap_cons n0 none σ.gScore x
          have hcf' : ∀ x, lookupMap σ'.cameFrom x =
              if n0 = x then some cur else lookupMap σ.cameFrom x := by
            intro x
            exact lookupMap_cons n0 cur σ.cameFrom x
          have hcurg' : orInfinity (lookupMap σ'.gScore cur) = none := by
            rw [hg' cur, if_neg (fun h => hcur0 h.symm)]
            exact hcurg
          have hopen' : ∀ e ∈ σ'.openSet, (lookupMap σ'.gScore e.1).isSome = true := by
            intro e he
            rw [hg' e.1]
            by_cases hx : n0 = e.1
            · rw [if_pos hx]
              rfl
            · rw [if_neg hx]
              have he' : e ∈ σ.openSet := by
                rcases List.mem_append.mp he with h | h
                · exact h
                · exfalso
                  rw [List.mem_singleton] at h
                  apply hx
                  rw [h]
              exact hopen e he'
          obtain ⟨ihc, iho, ihg, ihcf⟩ := ih σ' hndrest hcurrest hcurg' hopen'
          have hnewsrest : newsOf obstacles σ' rest = newsOf obstacles σ rest := by
            unfold newsOf
            apply List.filter_congr
            intro n hn
            have hne : n0 ≠ n := fun h => hn0rest (h ▸ hn)
            rw [show σ'.closedSet = σ.closedSet from rfl, hg' n, if_neg hne]
          have hnews : newsOf obstacles σ (n0 :: rest) = n0 :: newsOf obstacles σ rest := by
            unfold newsOf
            rw [List.filter_cons_of_pos]
            simp [hcl, hbl, hsn]
          refine ⟨?_, ?_, ?_, ?_⟩
          · rw [ihc]
          · rw [iho, hnews, hnewsrest]
            rw [show σ'.openSet = σ.openSet ++ [(n0, (none : Option Nat))] from rfl]
            rw [List.append_assoc]
            rfl
          · intro x
            rw [ihg x, hnews, hnewsrest]
            by_cases hx : x ∈ newsOf obstacles σ rest
            · rw [if_pos hx, if_pos (List.mem_cons_of_mem _ hx)]
            · rw [if_neg hx, hg' x]
              by_cases hx0 : n0 = x
              · rw [if_pos hx0, if_pos (by rw [← hx0]; exact List.mem_cons_self _ _)]
              · rw [if_neg hx0, if_neg (by
                  intro hmem
                  rcases List.mem_cons.mp hmem with h | h
                  · exact hx0 h.symm
                  · exact hx h)]
          · intro x
            rw [ihcf x, hnews, hnewsrest]
            by_cases hx : x ∈ newsOf obstacles σ rest
            · rw [if_pos hx, if_pos (List.mem_cons_of_mem _ hx)]
            · rw [if_neg hx, hcf' x]
              by_cases hx0 : n0 = x
              · rw [if_pos hx0, if_pos (by rw [← hx0]; exact List.mem_cons_self _ _)]
              · rw [if_neg hx0, if_neg (by
                  intro hmem
                  rcases List.mem_cons.mp hmem with h | h
                  · exact hx0 h.symm
                  · exact hx h)]

theorem orInfinity_of_seen (R : Nat) (start : Hex) (σ : AStarState)
    (hInv : SearchInv R start σ) (x : Hex)
    (hseen : (lookupMap σ.gScore x).isSome = true) :
    orInfinity (lookupMap σ.gScore x) = none := by
  by_cases hx : x = start
  · subst hx
    rw [hInv.g_start]
    rfl
  · obtain ⟨v, hv⟩ := Option.isSome_iff_exists.mp hseen
    have := hInv.g_values x v hx hv
    subst this
    rw [hv]
    rfl

/-- One closing step of the search loop preserves `SearchInv`. -/
theorem searchInv_step (R : Nat) (goalQ goalR : Int) (obstacles : List Hex) (start : Hex)
    (σ : AStarState) (hInv : SearchInv R start σ) (c : Hex × Option Nat)
    (rest : List (Hex × Option Nat)) (hop : σ.openSet = c :: rest) :
    SearchInv R start
      ((getNeighbors R c.1.q c.1.r).foldl (expandNeighbor goalQ goalR obstacles c.1)
        { σ with openSet := rest, closedSet := c.1 :: σ.closedSet }) ∧
    ((getNeighbors R c.1.q c.1.r).foldl (expandNeighbor goalQ goalR obstacles c.1)
        { σ with openSet := rest, closedSet := c.1 :: σ.closedSet }).closedSet =
      c.1 :: σ.closedSet := by
  set σ1 : AStarState := { σ with openSet := rest, closedSet := c.1 :: σ.closedSet } with hσ1
  have hcmem : c ∈ σ.openSet := by
    rw [hop]
    exact List.mem_cons_self c rest
  have hcseen : (lookupMap σ.gScore c.1).isSome = true := by
    rw [hInv.seen_iff]
    exact Or.inr (List.mem_map_of_mem Prod.fst hcmem)
  have hns : (getNeighbors R c.1.q c.1.r).Nodup := getNeighbors_nodup R c.1.q c.1.r
  have hcns : c.1 ∉ getNeighbors R c.1.q c.1.r := self_not_mem_getNeighbors R c.1.q c.1.r
  have hcurg : orInfinity (lookupMap σ1.gScore c.1) = none :=
    orInfinity_of_seen R start σ hInv c.1 hcseen
  have hopen1 : ∀ e ∈ σ1.openSet, (lookupMap σ1.gScore e.1).isSome = true := by
    intro e he
    rw [show σ1.gScore = σ.gScore from rfl, hInv.seen_iff]
    refine Or.inr ?_
    rw [hop]
    exact List.mem_map_of_mem Prod.fst (List.mem_cons_of_mem c he)
  obtain ⟨hc2, ho2, hg2, hcf2⟩ :=
    expand_fold_spec goalQ goalR obstacles c.1 (getNeighbors R c.1.q c.1.r) σ1 hns hcns
      hcurg hopen1
  set σ2 := (getNeighbors R c.1.q c.1.r).foldl (expandNeighbor goalQ goalR obstacles c.1) σ1
    with hσ2
  set news := newsOf obstacles σ1 (getNeighbors R c.1.q c.1.r) with hnews
  have hnews_sub : ∀ n ∈ news, n ∈ getNeighbors R c.1.q c.1.r := by
    intro n hn
    exact List.mem_of_mem_filter hn
  have hnews_unseen : ∀ n ∈ news, (lookupMap σ.gScore n).isSome = false := by
    intro n hn
    have := List.of_mem_filter hn
    simp only [Bool.and_eq_true, Bool.not_eq_eq_eq_not, Bool.not_true] at this
    exact this.2
  have hnews_nodup : news.Nodup := hns.filter _
  have hopmap : σ.openSet.map Prod.fst = c.1 :: rest.map Prod.fst := by
    rw [hop]
    rfl
  have hrest_sub : ∀ x ∈ rest.map Prod.fst, x ∈ σ.openSet.map Prod.fst := by
    intro x hx
    rw [hopmap]
    exact List.mem_cons_of_mem _ hx
  have hnews_notopen : ∀ n ∈ news, n ∉ σ.openSet.map Prod.fst := by
    intro n hn hmem
    have hseen : (lookupMap σ.gScore n).isSome = true := (hInv.seen_iff n).mpr (Or.inr hmem)
    rw [hnews_unseen n hn] at hseen
    exact absurd hseen (by decide)
  have hnews_notclosed : ∀ n ∈ news, n ∉ σ.closedSet := by
    intro n hn hmem
    have hseen : (lookupMap σ.gScore n).isSome = true := (hInv.seen_iff n).mpr (Or.inl hmem)
    rw [hnews_unseen n hn] at hseen
    exact absurd hseen (by decide)
  have hnews_necur : ∀ n ∈ news, n ≠ c.1 := by
    intro n hn hEq
    apply hnews_notopen n hn
    rw [hEq, hopmap]
    exact List.mem_cons_self _ _
  have ho2' : σ2.openSet = rest ++ news.map (fun n => (n, (none : Option Nat))) := ho2
  have homap : σ2.openSet.map Prod.fst = rest.map Prod.fst ++ news := by
    rw [ho2', List.map_append, List.map_map]
    congr 1
    rw [show (Prod.fst ∘ fun n => (n, (none : Option Nat))) = id from rfl, List.map_id]
  refine ⟨⟨?_, ?_, ?_, ?_, ?_, ?_, ?_, ?_, ?_⟩, by rw [hc2]⟩
  · -- open_ok
    intro e he
    rw [ho2'] at he
    rcases List.mem_append.mp he with h | h
    · exact hInv.open_ok e (by rw [hop]; exact List.mem_cons_of_mem c h)
    · obtain ⟨n, hn, rfl⟩ := List.mem_map.mp h
      exact Or.inr ((getNeighbors_mem R c.1.q c.1.r n).mp (hnews_sub n hn)).2
  · -- open_none
    intro e he
    rw [ho2'] at he
    rcases List.mem_append.mp he with h | h
    · exact hInv.open_none e (by rw [hop]; exact List.mem_cons_of_mem c h)
    · obtain ⟨n, hn, rfl⟩ := List.mem_map.mp h
      rfl
  · -- open_nodup
    rw [homap]
    rw [List.nodup_append]
    refine ⟨?_, hnews_nodup, ?_⟩
    · have := hInv.open_nodup
      rw [hopmap] at this
      exact (List.nodup_cons.mp this).2
    · intro x hx hx2
      exact hnews_notopen x hx2 (hrest_sub x hx)
  · -- open_closed
    intro e he
    rw [hc2]
    rw [ho2'] at he
    rcases List.mem_append.mp he with h | h
    · intro hmem
      rcases List.mem_cons.mp hmem with hEq | hmem2
      · have := hInv.open_nodup
        rw [hopmap] at this
        exact (List.nodup_cons.mp this).1 (hEq ▸ List.mem_map_of_mem Prod.fst h)
      · exact hInv.open_closed e (by rw [hop]; exact List.mem_cons_of_mem c h) hmem2
    · obtain ⟨n, hn, rfl⟩ := List.mem_map.mp h
      intro hmem
      rcases List.mem_cons.mp hmem with hEq | hmem2
      · exact hnews_necur n hn hEq
      · exact hnews_notclosed n hn hmem2
  · -- closed_ok
    intro x hx
    rw [hc2] at hx
    rcases List.mem_cons.mp hx with rfl | hx2
    · exact hInv.open_ok c hcmem
    · exact hInv.closed_ok x hx2
  · -- closed_nodup
    rw [hc2]
    rw [List.nodup_cons]
    exact ⟨hInv.open_closed c hcmem, hInv.closed_nodup⟩
  · -- seen_iff
    intro x
    rw [hg2 x, hc2, homap]
    by_cases hx : x ∈ news
    · rw [if_pos hx]
      simp only [Option.isSome_some]
      constructor
      · intro _
        exact Or.inr (List.mem_append.mpr (Or.inr hx))
      · intro _
        trivial
    · rw [if_neg hx]
      rw [show σ1.gScore = σ.gScore from rfl]
      rw [hInv.seen_iff x, hopmap]
      constructor
      · rintro (h | h)
        · exact Or.inl (List.mem_cons_of_mem _ h)
        · rcases List.mem_cons.mp h with rfl | h2
          · exact Or.inl (List.mem_cons_self _ _)
          · exact Or.inr (List.mem_append.mpr (Or.inl h2))
      · rintro (h | h)
        · rcases List.mem_cons.mp h with rfl | h2
          · exact Or.inr (List.mem_cons_self _ _)
          · exact Or.inl h2
        · rcases List.mem_append.mp h with h2 | h2
          · exact Or.inr (List.mem_cons_of_mem _ h2)
          · exact absurd h2 hx
  · -- g_start
    have hstart_notnews : start ∉ news := by
      intro hmem
      have := hnews_unseen start hmem
      rw [show σ1.gScore = σ.gScore from rfl] at this
      rw [hInv.g_start] at this
      exact absurd this (by decide)
    rw [hg2 start, if_neg hstart_notnews]
    exact hInv.g_start
  · -- g_values
    intro x v hx hv
    rw [hg2 x] at hv
    by_cases hmem : x ∈ news
    · rw [if_pos hmem] at hv
      exact (Option.some_inj.mp hv).symm
    · rw [if_neg hmem] at hv
      exact hInv.g_values x v hx hv

theorem astarLoop_nil (R : Nat) (endQ endR : Int) (obstacles : List Hex) (fuel : Nat)
    (st : AStarState) (h : st.openSet = []) :
    astarLoop R endQ endR obstacles (fuel + 1) st = some none := by
  unfold astarLoop
  rw [show sortByF st.openSet = [] from by rw [h]; rfl]

theorem astarLoop_cons_notgoal (R : Nat) (endQ endR : Int) (obstacles : List Hex)
    (fuel : Nat) (st σ2 : AStarState) (c : Hex × Option Nat) (rest : List (Hex × Option Nat))
    (h : sortByF st.openSet = c :: rest) (hng : ¬(c.1.q = endQ ∧ c.1.r = endR))
    (hσ2 : σ2 = (getNeighbors R c.1.q c.1.r).foldl (expandNeighbor endQ endR obstacles c.1)
      { st with openSet := rest, closedSet := c.1 :: st.closedSet }) :
    astarLoop R endQ endR obstacles (fuel + 1) st =
      astarLoop R endQ endR obstacles fuel σ2 := by
  subst hσ2
  conv_lhs => rw [astarLoop]
  rw [h]
  dsimp only
  rw [if_neg hng]

/-- If the goal hex is off the board and differs from the start, the loop can
never pop it: every iteration closes a fresh board hex, so within the fuel
bound the open set empties and the JS `null` is returned. -/
theorem astarLoop_none (R : Nat) (goalQ goalR : Int) (obstacles : List Hex) (start : Hex)
    (hgoal : isValidHex R goalQ goalR = false)
    (hne : ¬(start.q = goalQ ∧ start.r = goalR)) :
    ∀ (fuel : Nat) (σ : AStarState), SearchInv R start σ →
      2 + (2 * R + 1) * (2 * R + 1) ≤ fuel + σ.closedSet.length →
      astarLoop R goalQ goalR obstacles fuel σ = some none := by
  intro fuel
  induction fuel with
  | zero =>
    intro σ hInv hfuel
    exfalso
    have := nodup_length_le_square R start σ.closedSet hInv.closed_nodup hInv.closed_ok
    omega
  | succ n ih =>
    intro σ hInv hfuel
    cases hop : σ.openSet with
    | nil => exact astarLoop_nil R goalQ goalR obstacles n σ hop
    | cons c rest =>
      have hsort : sortByF σ.openSet = c :: rest := by
        rw [sortByF_of_all_none σ.openSet hInv.open_none, hop]
      have hcmem : c ∈ σ.openSet := by
        rw [hop]
        exact List.mem_cons_self c rest
      have hcgoal : ¬(c.1.q = goalQ ∧ c.1.r = goalR) := by
        rcases hInv.open_ok c hcmem with hs | hv
        · rw [hs]
          exact hne
        · rintro ⟨h1, h2⟩
          rw [h1, h2] at hv
          rw [hv] at hgoal
          exact absurd hgoal (by decide)
      rw [astarLoop_cons_notgoal R goalQ goalR obstacles n σ _ c rest hsort hcgoal rfl]
      obtain ⟨hInv2, hclosed2⟩ := searchInv_step R goalQ goalR obstacles start σ hInv c rest hop
      apply ih _ hInv2
      rw [hclosed2, List.length_cons]
      omega

/-- `SearchInv` for the initial state, normalised so that the start's f-score
entry in the open set is `none` (the value is irrelevant: the open set is a
singleton, so the first pop is the start either way). -/
theorem searchInv_init (R : Nat) (startQ startR : Int) (g : Option Nat) :
    SearchInv R ⟨startQ, startR⟩
      { openSet := [(⟨startQ, startR⟩, none)],
        closedSet := [],
        cameFrom := [],
        gScore := [(⟨startQ, startR⟩, some 0)],
        fScore := [(⟨startQ, startR⟩, g)] } := by
  refine ⟨?_, ?_, ?_, ?_, ?_, ?_, ?_, ?_, ?_⟩
  · intro e he
    rcases List.mem_singleton.mp he with rfl
    exact Or.inl rfl
  · intro e he
    rcases List.mem_singleton.mp he with rfl
    rfl
  · exact List.nodup_singleton _
  · intro e _ h
    exact absurd h (List.not_mem_nil _)
  · intro x hx
    exact absurd hx (List.not_mem_nil _)
  · exact List.nodup_nil
  · intro x
    rw [lookupMap_cons]
    by_cases h : (⟨startQ, startR⟩ : Hex) = x
    · rw [if_pos h]
      constructor
      · intro _
        refine Or.inr ?_
        rw [← h]
        exact List.mem_cons_self _ _
      · intro _
        rfl
    · rw [if_neg h]
      constructor
      · intro habs
        rw [show lookupMap ([] : List (Hex × Option Nat)) x = none from rfl] at habs
        exact Bool.noConfusion habs
      · rintro (h1 | h1)
        · exact absurd h1 (List.not_mem_nil _)
        · exact absurd (List.mem_singleton.mp h1).symm h
  · rw [lookupMap_cons, if_pos rfl]
  · intro x v hx hv
    rw [lookupMap_cons, if_neg (fun h => hx h.symm)] at hv
    rw [show lookupMap ([] : List (Hex × Option Nat)) x = none from rfl] at hv
    exact Option.noConfusion hv

/-- **C3 (amended).**  If the goal coordinate lies outside the grid's valid
coordinate set and differs from the start coordinate, `findPath` returns the
JS `null`.  (The code never validates the *start* coordinate, and a goal equal
to the start short-circuits before any validity check: see the
counterexample.) -/
theorem claim_C3 (R : Nat) (startQ startR endQ endR : Int) (obstacles : List Hex)
    (hgoal : isValidHex R endQ endR = false)
    (hne : ¬(startQ = endQ ∧ startR = endR)) :
    findPath R startQ startR endQ endR obstacles = none := by
  have hstep : astarLoop R endQ endR obstacles ((2 * R + 1) * (2 * R + 1) + 2)
      { openSet := [(⟨startQ, startR⟩, some (getDistance startQ startR endQ endR))],
        closedSet := [], cameFrom := [],
        gScore := [(⟨startQ, startR⟩, some 0)],
        fScore := [(⟨startQ, startR⟩, some (getDistance startQ startR endQ endR))] } =
      astarLoop R endQ endR obstacles ((2 * R + 1) * (2 * R + 1) + 1)
        ((getNeighbors R startQ startR).foldl
          (expandNeighbor endQ endR obstacles ⟨startQ, startR⟩)
          { openSet := [], closedSet := [⟨startQ, startR⟩], cameFrom := [],
            gScore := [(⟨startQ, startR⟩, some 0)],
            fScore := [(⟨startQ, startR⟩, some (getDistance startQ startR endQ endR))] }) :=
    astarLoop_cons_notgoal R endQ endR obstacles ((2 * R + 1) * (2 * R + 1) + 1)
      _ _ (⟨startQ, startR⟩, some (getDistance startQ startR endQ endR)) [] rfl hne rfl
  obtain ⟨hInv2, hclosed2⟩ := searchInv_step R endQ endR obstacles ⟨startQ, startR⟩
    { openSet := [(⟨startQ, startR⟩, none)], closedSet := [], cameFrom := [],
      gScore := [(⟨startQ, startR⟩, some 0)],
      fScore := [(⟨startQ, startR⟩, some (getDistance startQ startR endQ endR))] }
    (searchInv_init R startQ startR (some (getDistance startQ startR endQ endR)))
    (⟨startQ, startR⟩, none) [] rfl
  have hInv2' : SearchInv R ⟨startQ, startR⟩
      ((getNeighbors R startQ startR).foldl
        (expandNeighbor endQ endR obstacles ⟨startQ, startR⟩)
        { openSet := [], closedSet := [⟨startQ, startR⟩], cameFrom := [],
          gScore := [(⟨startQ, startR⟩, some 0)],
          fScore := [(⟨startQ, startR⟩, some (getDistance startQ startR endQ endR))] }) := hInv2
  have hclosed2' : ((getNeighbors R startQ startR).foldl
      (expandNeighbor endQ endR obstacles ⟨startQ, startR⟩)
      { openSet := [], closedSet := [⟨startQ, startR⟩], cameFrom := [],
        gScore := [(⟨startQ, startR⟩, some 0)],
        fScore := [(⟨startQ, startR⟩, some (getDistance startQ startR endQ endR))] }).closedSet =
      [⟨startQ, startR⟩] := hclosed2
  have hrun := astarLoop_none R endQ endR obstacles ⟨startQ, startR⟩ hgoal hne
    ((2 * R + 1) * (2 * R + 1) + 1) _ hInv2'
    (by rw [hclosed2']; simp only [List.length_singleton]; omega)
  unfold findPath
  dsimp only
  rw [hstep, hrun]

/-- Witness for C3: on the radius-2 grid, the hex `(3,0)` is off the board,
and a search from the on-board start `(0,0)` to it returns `null`. -/
theorem claim_C3_witness :
    isValidHex 2 3 0 = false ∧ findPath 2 0 0 3 0 [] = none :=
  ⟨by decide, claim_C3 2 0 0 3 0 [] (by decide) (by decide)⟩

theorem hex_eq_of (a b : Hex) (h1 : a.q = b.q) (h2 : a.r = b.r) : a = b := by
  cases a
  cases b
  dsimp only at h1 h2
  rw [h1, h2]

theorem orInfinity_none_of (g : List (Hex × Option Nat)) (start x : Hex)
    (hgs : lookupMap g start = some (some 0))
    (hgv : ∀ y v, y ≠ start → lookupMap g y = some v → v = none)
    (hseen : (lookupMap g x).isSome = true) :
    orInfinity (lookupMap g x) = none := by
  by_cases hx : x = start
  · subst hx
    rw [hgs]
    rfl
  · obtain ⟨v, hv⟩ := Option.isSome_iff_exists.mp hseen
    have := hgv x v hx hv
    subst this
    rw [hv]
    rfl

theorem getDistance_le_of_valid (R : Nat) (a b : Hex)
    (ha : isValidHex R a.q a.r = true) (hb : isValidHex R b.q b.r = true) :
    getDistance a.q a.r b.q b.r ≤ 2 * R := by
  rw [isValidHex_iff] at ha hb
  unfold getDistance
  omega

theorem mem_getNeighbors_start_layer (R : Nat) (s n : Hex)
    (hn : n ∈ getNeighbors R s.q s.r) : getDistance n.q n.r s.q s.r = 1 := by
  rw [getNeighbors_mem] at hn
  obtain ⟨⟨d, hd, rfl⟩, _⟩ := hn
  rw [getDistance_comm, getDistance_eq_one_iff]
  exact ⟨d, hd, rfl⟩

theorem closer_neighbor_sym (R : Nat) (s x : Hex) (hs : isValidHex R s.q s.r = true)
    (hx : isValidHex R x.q x.r = true) (hpos : 1 ≤ getDistance x.q x.r s.q s.r) :
    ∃ y : Hex, isValidHex R y.q y.r = true ∧ x ∈ getNeighbors R y.q y.r ∧
      getDistance y.q y.r s.q s.r + 1 = getDistance x.q x.r s.q s.r := by
  obtain ⟨w, hw, hwd⟩ := exists_closer_neighbor R x s hx hs hpos
  exact ⟨w, ((getNeighbors_mem R x.q x.r w).mp hw).2, getNeighbors_symm R x w hx hw, hwd⟩

theorem any_beq_eq_false (l : List Hex) (n : Hex) :
    (l.any fun h => h == n) = false ↔ n ∉ l := by
  rw [← Bool.not_eq_true, List.any_eq_true]
  simp only [beq_iff_eq]
  constructor
  · intro h hmem
    exact h ⟨n, hmem, rfl⟩
  · rintro h ⟨x, hx, rfl⟩
    exact h hx

theorem mem_newsOf (obstacles : List Hex) (σ : AStarState) (ns : List Hex) (n : Hex) :
    n ∈ newsOf obstacles σ ns ↔
      n ∈ ns ∧ n ∉ σ.closedSet ∧ isBlocked obstacles n.q n.r = false ∧
        (lookupMap σ.gScore n).isSome = false := by
  unfold newsOf
  rw [List.mem_filter]
  simp only [Bool.and_eq_true, Bool.not_eq_true']
  rw [any_beq_eq_false]
  constructor
  · rintro ⟨h1, ⟨h2, h3⟩, h4⟩
    exact ⟨h1, h2, h3, h4⟩
  · rintro ⟨h1, h2, h3, h4⟩
    exact ⟨h1, ⟨h2, h3⟩, h4⟩

/-- Once the open set is empty, the closed set covers the whole board:
every valid hex is reached from the closed start by walking neighbour
links, each of which is seen and hence closed. -/
theorem closed_covers (R : Nat) (start : Hex) (σ : AStarState)
    (hsv : isValidHex R start.q start.r = true)
    (hstart : start ∈ σ.closedSet)
    (hns : ∀ y ∈ σ.closedSet, ∀ n ∈ getNeighbors R y.q y.r,
      n ∈ σ.closedSet ∨ n ∈ σ.openSet.map Prod.fst)
    (hopen : σ.openSet = []) :
    ∀ x : Hex, isValidHex R x.q x.r = true → x ∈ σ.closedSet := by
  have key : ∀ k : Nat, ∀ x : Hex, isValidHex R x.q x.r = true →
      getDistance x.q x.r start.q start.r = k → x ∈ σ.closedSet := by
    intro k
    induction k with
    | zero =>
      intro x hx hd
      rw [getDistance_eq_zero_iff] at hd
      rw [hex_eq_of x start hd.1 hd.2]
      exact hstart
    | succ m ih =>
      intro x hx hd
      obtain ⟨y, hyv, hxy, hyd⟩ := closer_neighbor_sym R start x hsv hx (by omega)
      have hyc : y ∈ σ.closedSet := ih y hyv (by omega)
      rcases hns y hyc x hxy with h | h
      · exact h
      · rw [hopen] at h
        exact absurd h (List.not_mem_nil _)
  intro x hx
  exact key (getDistance x.q x.r start.q start.r) x hx rfl

theorem astarLoop_cons_goal (R : Nat) (endQ endR : Int) (obstacles : List Hex)
    (fuel : Nat) (st : AStarState) (c : Hex × Option Nat) (rest : List (Hex × Option Nat))
    (h : sortByF st.openSet = c :: rest) (hgl : c.1.q = endQ ∧ c.1.r = endR) :
    astarLoop R endQ endR obstacles (fuel + 1) st =
      some (some (((reconPath st.cameFrom
        ((2 * R + 1) * (2 * R + 1) + 2) c.1).reverse).drop 1)) := by
  conv_lhs => rw [astarLoop]
  rw [h]
  dsimp only
  rw [if_pos hgl]

/-- The reconstruction walk: following `cameFrom` from a seen hex `x` at
layer `k` yields a chain of `k+1` hexes descending one layer per step,
ending at the start, provided the fuel covers the layer. -/
theorem recon_spec (R : Nat) (start : Hex) (cf : List (Hex × Hex))
    (g : List (Hex × Option Nat))
    (cfst : lookupMap cf start = none)
    (cfseen : ∀ x, x ≠ start → (lookupMap g x).isSome = true →
      (lookupMap cf x).isSome = true)
    (cfspec : ∀ x p, lookupMap cf x = some p → (lookupMap g p).isSome = true ∧
      x ∈ getNeighbors R p.q p.r ∧
      getDistance x.q x.r start.q start.r = getDistance p.q p.r start.q start.r + 1) :
    ∀ (k : Nat) (x : Hex), getDistance x.q x.r start.q start.r = k →
      (lookupMap g x).isSome = true → ∀ fuel, k ≤ fuel →
      ∃ l : List Hex, reconPath cf fuel x = x :: l ∧ (x :: l).length = k + 1 ∧
        (x :: l).getLast? = some start ∧
        List.Chain' (fun a b => a ∈ getNeighbors R b.q b.r) (x :: l) := by
  intro k
  induction k with
  | zero =>
    intro x hxd hxseen fuel hfuel
    have hx : x = start := by
      rw [getDistance_eq_zero_iff] at hxd
      exact hex_eq_of x start hxd.1 hxd.2
    subst hx
    cases fuel with
    | zero => exact ⟨[], rfl, rfl, rfl, List.chain'_singleton x⟩
    | succ m =>
      refine ⟨[], ?_, rfl, rfl, List.chain'_singleton x⟩
      conv_lhs => rw [reconPath]
      rw [cfst]
  | succ m ih =>
    intro x hxd hxseen fuel hfuel
    have hxs : x ≠ start := by
      intro hEq
      rw [hEq, getDistance_self] at hxd
      exact Nat.succ_ne_zero m hxd.symm
    obtain ⟨p, hp⟩ := Option.isSome_iff_exists.mp (cfseen x hxs hxseen)
    obtain ⟨hpseen, hxnp, hlayer⟩ := cfspec x p hp
    cases fuel with
    | zero => omega
    | succ f =>
      have hpd : getDistance p.q p.r start.q start.r = m := by omega
      obtain ⟨l', hrec, hlen, hlast, hchain⟩ := ih p hpd hpseen f (by omega)
      have hstep : reconPath cf (f + 1) x = x :: reconPath cf f p := by
        conv_lhs => rw [reconPath, hp]
      refine ⟨p :: l', ?_, ?_, ?_, ?_⟩
      · rw [hstep, hrec]
      · simp only [List.length_cons] at hlen ⊢
        omega
      · rw [List.getLast?_cons_cons]
        exact hlast
      · rw [List.chain'_cons]
        exact ⟨hxnp, hchain⟩

/-- Counterexample to the original C3: an *invalid start* is not rejected.
On the radius-2 grid the start `(3,0)` is off the board, yet `findPath`
happily returns a path from it to `(0,0)` (the start's neighbours are
computed and filtered to valid hexes, so the search walks onto the board). -/
theorem claim_C3_counterexample :
    isValidHex 2 3 0 = false ∧
      findPath 2 3 0 0 0 [] = some [⟨2, 0⟩, ⟨1, 0⟩, ⟨0, 0⟩] :=
  ⟨by decide, by decide⟩

/-- One closing step of the degenerate-BFS loop preserves `BfsInv` (empty
obstacle set, popped node not the goal). -/
theorem bfsInv_step (R : Nat) (start goal : Hex) (σ : AStarState)
    (hsv : isValidHex R start.q start.r = true)
    (hInv : BfsInv R start goal σ) (c : Hex × Option Nat)
    (rest : List (Hex × Option Nat)) (hop : σ.openSet = c :: rest) (hcg : c.1 ≠ goal) :
    BfsInv R start goal
      ((getNeighbors R c.1.q c.1.r).foldl (expandNeighbor goal.q goal.r [] c.1)
        { σ with openSet := rest, closedSet := c.1 :: σ.closedSet }) ∧
    ((getNeighbors R c.1.q c.1.r).foldl (expandNeighbor goal.q goal.r [] c.1)
        { σ with openSet := rest, closedSet := c.1 :: σ.closedSet }).closedSet =
      c.1 :: σ.closedSet := by
  set σ1 : AStarState := { σ with openSet := rest, closedSet := c.1 :: σ.closedSet } with hσ1
  have hcmem : c ∈ σ.openSet := by
    rw [hop]
    exact List.mem_cons_self c rest
  have hcseen : (lookupMap σ.gScore c.1).isSome = true := by
    rw [hInv.seen_iff]
    exact Or.inr (List.mem_map_of_mem Prod.fst hcmem)
  have hns : (getNeighbors R c.1.q c.1.r).Nodup := getNeighbors_nodup R c.1.q c.1.r
  have hcns : c.1 ∉ getNeighbors R c.1.q c.1.r := self_not_mem_getNeighbors R c.1.q c.1.r
  have hcurg : orInfinity (lookupMap σ1.gScore c.1) = none :=
    orInfinity_none_of σ.gScore start c.1 hInv.g_start hInv.g_values hcseen
  have hopen1 : ∀ e ∈ σ1.openSet, (lookupMap σ1.gScore e.1).isSome = true := by
    intro e he
    rw [show σ1.gScore = σ.gScore from rfl, hInv.seen_iff]
    refine Or.inr ?_
    rw [hop]
    exact List.mem_map_of_mem Prod.fst (List.mem_cons_of_mem c he)
  obtain ⟨hc2, ho2, hg2, hcf2⟩ :=
    expand_fold_spec goal.q goal.r [] c.1 (getNeighbors R c.1.q c.1.r) σ1 hns hcns
      hcurg hopen1
  set σ2 := (getNeighbors R c.1.q c.1.r).foldl (expandNeighbor goal.q goal.r [] c.1) σ1
    with hσ2
  set news := newsOf [] σ1 (getNeighbors R c.1.q c.1.r) with hnews
  have hnews_sub : ∀ n ∈ news, n ∈ getNeighbors R c.1.q c.1.r := by
    intro n hn
    exact List.mem_of_mem_filter hn
  have hnews_unseen : ∀ n ∈ news, (lookupMap σ.gScore n).isSome = false := by
    intro n hn
    have := List.of_mem_filter hn
    simp only [Bool.and_eq_true, Bool.not_eq_eq_eq_not, Bool.not_true] at this
    exact this.2
  have hnews_nodup : news.Nodup := hns.filter _
  have hopmap : σ.openSet.map Prod.fst = c.1 :: rest.map Prod.fst := by
    rw [hop]
    rfl
  have hrest_sub : ∀ x ∈ rest.map Prod.fst, x ∈ σ.openSet.map Prod.fst := by
    intro x hx
    rw [hopmap]
    exact List.mem_cons_of_mem _ hx
  have hnews_notopen : ∀ n ∈ news, n ∉ σ.openSet.map Prod.fst := by
    intro n hn hmem
    have hseen : (lookupMap σ.gScore n).isSome = true := (hInv.seen_iff n).mpr (Or.inr hmem)
    rw [hnews_unseen n hn] at hseen
    exact absurd hseen (by decide)
  have hnews_notclosed : ∀ n ∈ news, n ∉ σ.closedSet := by
    intro n hn hmem
    have hseen : (lookupMap σ.gScore n).isSome = true := (hInv.seen_iff n).mpr (Or.inl hmem)
    rw [hnews_unseen n hn] at hseen
    exact absurd hseen (by decide)
  have hnews_necur : ∀ n ∈ news, n ≠ c.1 := by
    intro n hn hEq
    apply hnews_notopen n hn
    rw [hEq, hopmap]
    exact List.mem_cons_self _ _
  have ho2' : σ2.openSet = rest ++ news.map (fun n => (n, (none : Option Nat))) := ho2
  have homap : σ2.openSet.map Prod.fst = rest.map Prod.fst ++ news := by
    rw [ho2', List.map_append, List.map_map]
    congr 1
    rw [show (Prod.fst ∘ fun n => (n, (none : Option Nat))) = id from rfl, List.map_id]
  -- layer bookkeeping: the popped node's layer is minimal, the window is one
  have hmin : ∀ e ∈ σ.openSet, getDistance c.1.q c.1.r start.q start.r ≤
      getDistance e.1.q e.1.r start.q start.r := by
    intro e he
    rw [hop] at he
    rcases List.mem_cons.mp he with rfl | he2
    · exact le_refl _
    · have hps := hInv.open_sorted
      rw [hop] at hps
      exact (List.pairwise_cons.mp hps).1 e he2
  have hmax : ∀ e ∈ σ.openSet, getDistance e.1.q e.1.r start.q start.r ≤
      getDistance c.1.q c.1.r start.q start.r + 1 :=
    fun e he => hInv.open_window e he c hcmem
  have hnews_valid : ∀ n ∈ news, isValidHex R n.q n.r = true :=
    fun n hn => ((getNeighbors_mem R c.1.q c.1.r n).mp (hnews_sub n hn)).2
  have hstart_seen : (lookupMap σ.gScore start).isSome = true := by
    rw [hInv.g_start]
    rfl
  have hnews_layer : ∀ n ∈ news, getDistance n.q n.r start.q start.r =
      getDistance c.1.q c.1.r start.q start.r + 1 := by
    intro n hn
    have hnv := hnews_valid n hn
    have hstep := mem_getNeighbors_layer R start n c.1 (hnews_sub n hn)
    have hnseenF := hnews_unseen n hn
    have hnot_lt : ¬ (getDistance n.q n.r start.q start.r <
        getDistance c.1.q c.1.r start.q start.r) := by
      intro hlt
      have hc : n ∈ σ.closedSet :=
        hInv.below_closed n hnv (fun e he => lt_of_lt_of_le hlt (hmin e he))
      have hseen : (lookupMap σ.gScore n).isSome = true := (hInv.seen_iff n).mpr (Or.inl hc)
      rw [hseen] at hnseenF
      exact Bool.noConfusion hnseenF
    have hnot_eq : ¬ (getDistance n.q n.r start.q start.r =
        getDistance c.1.q c.1.r start.q start.r) := by
      intro hEq
      by_cases h0 : getDistance c.1.q c.1.r start.q start.r = 0
      · have hn0 : getDistance n.q n.r start.q start.r = 0 := by omega
        rw [getDistance_eq_zero_iff] at hn0
        rw [hex_eq_of n start hn0.1 hn0.2, hstart_seen] at hnseenF
        exact Bool.noConfusion hnseenF
      · obtain ⟨y, hyv, hxy, hyd⟩ := closer_neighbor_sym R start n hsv hnv (by omega)
        have hyc : y ∈ σ.closedSet := hInv.below_closed y hyv (fun e he => by
          have := hmin e he
          omega)
        have hseen : (lookupMap σ.gScore n).isSome = true := hInv.nbrs_seen y hyc n hxy
        rw [hseen] at hnseenF
        exact Bool.noConfusion hnseenF
    omega
  -- the primed invariant fields
  have hclosed2 : σ2.closedSet = c.1 :: σ.closedSet := hc2
  have hseen2 : ∀ x, (lookupMap σ2.gScore x).isSome = true ↔
      (x ∈ σ2.closedSet ∨ x ∈ σ2.openSet.map Prod.fst) := by
    intro x
    rw [hg2 x, hclosed2, homap]
    by_cases hx : x ∈ news
    · rw [if_pos hx]
      constructor
      · intro _
        exact Or.inr (List.mem_append.mpr (Or.inr hx))
      · intro _
        rfl
    · rw [if_neg hx]
      rw [show σ1.gScore = σ.gScore from rfl]
      rw [hInv.seen_iff x, hopmap]
      constructor
      · rintro (h | h)
        · exact Or.inl (List.mem_cons_of_mem _ h)
        · rcases List.mem_cons.mp h with rfl | h2
          · exact Or.inl (List.mem_cons_self _ _)
          · exact Or.inr (List.mem_append.mpr (Or.inl h2))
      · rintro (h | h)
        · rcases List.mem_cons.mp h with rfl | h2
          · exact Or.inr (List.mem_cons_self _ _)
          · exact Or.inl h2
        · rcases List.mem_append.mp h with h2 | h2
          · exact Or.inr (List.mem_cons_of_mem _ h2)
          · exact absurd h2 hx
  have hns2 : ∀ y ∈ σ2.closedSet, ∀ n ∈ getNeighbors R y.q y.r,
      (lookupMap σ2.gScore n).isSome = true := by
    intro y hy n hn
    rw [hg2 n]
    by_cases hmem : n ∈ news
    · rw [if_pos hmem]
      rfl
    · rw [if_neg hmem]
      rw [hclosed2] at hy
      rcases List.mem_cons.mp hy with rfl | hy2
      · by_contra hns'
        rw [Bool.not_eq_true] at hns'
        apply hmem
        rw [hnews, mem_newsOf]
        refine ⟨hn, ?_, rfl, hns'⟩
        intro hmem2
        rw [show σ1.closedSet = c.1 :: σ.closedSet from rfl] at hmem2
        rw [show σ1.gScore = σ.gScore from rfl] at hns'
        rcases List.mem_cons.mp hmem2 with rfl | hmem3
        · rw [hcseen] at hns'
          exact Bool.noConfusion hns'
        · have := (hInv.seen_iff n).mpr (Or.inl hmem3)
          rw [this] at hns'
          exact Bool.noConfusion hns'
      · exact hInv.nbrs_seen y hy2 n hn
  have hsorted2 : σ2.openSet.Pairwise (fun a b =>
      getDistance a.1.q a.1.r start.q start.r ≤ getDistance b.1.q b.1.r start.q start.r) := by
    rw [ho2', List.pairwise_append]
    refine ⟨?_, ?_, ?_⟩
    · have hps := hInv.open_sorted
      rw [hop] at hps
      exact (List.pairwise_cons.mp hps).2
    · rw [List.pairwise_map]
      apply List.pairwise_of_forall_mem_list
      intro a ha b hb
      dsimp only
      rw [hnews_layer a ha, hnews_layer b hb]
    · intro a ha b hb
      obtain ⟨n, hn, rfl⟩ := List.mem_map.mp hb
      dsimp only
      rw [hnews_layer n hn]
      exact hmax a (by rw [hop]; exact List.mem_cons_of_mem c ha)
  have hwindow2 : ∀ a ∈ σ2.openSet, ∀ b ∈ σ2.openSet,
      getDistance a.1.q a.1.r start.q start.r ≤
        getDistance b.1.q b.1.r start.q start.r + 1 := by
    intro a ha b hb
    rw [ho2'] at ha hb
    have hha : getDistance a.1.q a.1.r start.q start.r ≤
        getDistance c.1.q c.1.r start.q start.r + 1 := by
      rcases List.mem_append.mp ha with h | h
      · exact hmax a (by rw [hop]; exact List.mem_cons_of_mem c h)
      · obtain ⟨n, hn, rfl⟩ := List.mem_map.mp h
        rw [hnews_layer n hn]
    have hhb : getDistance c.1.q c.1.r start.q start.r ≤
        getDistance b.1.q b.1.r start.q start.r := by
      rcases List.mem_append.mp hb with h | h
      · exact hmin b (by rw [hop]; exact List.mem_cons_of_mem c h)
      · obtain ⟨n, hn, rfl⟩ := List.mem_map.mp h
        rw [hnews_layer n hn]
        omega
    omega
  have hbelow2 : ∀ x : Hex, isValidHex R x.q x.r = true →
      (∀ e ∈ σ2.openSet, getDistance x.q x.r start.q start.r <
        getDistance e.1.q e.1.r start.q start.r) → x ∈ σ2.closedSet := by
    intro x hvx hx
    by_cases hcase : getDistance x.q x.r start.q start.r <
        getDistance c.1.q c.1.r start.q start.r
    · have hxc : x ∈ σ.closedSet :=
        hInv.below_closed x hvx (fun e he => lt_of_lt_of_le hcase (hmin e he))
      rw [hclosed2]
      exact List.mem_cons_of_mem _ hxc
    · by_cases hcase2 : getDistance x.q x.r start.q start.r =
          getDistance c.1.q c.1.r start.q start.r
      · by_cases h0 : getDistance c.1.q c.1.r start.q start.r = 0
        · have hx0 : getDistance x.q x.r start.q start.r = 0 := by omega
          rw [getDistance_eq_zero_iff] at hx0
          rw [hex_eq_of x start hx0.1 hx0.2, hclosed2]
          exact List.mem_cons_of_mem _ hInv.start_closed
        · obtain ⟨y, hyv, hxy, hyd⟩ := closer_neighbor_sym R start x hsv hvx (by omega)
          have hyc : y ∈ σ.closedSet := hInv.below_closed y hyv (fun e he => by
            have := hmin e he
            omega)
          have hxseen : (lookupMap σ.gScore x).isSome = true := hInv.nbrs_seen y hyc x hxy
          rcases (hInv.seen_iff x).mp hxseen with hxc | hxo
          · rw [hclosed2]
            exact List.mem_cons_of_mem _ hxc
          · rw [hopmap] at hxo
            rcases List.mem_cons.mp hxo with rfl | hxr
            · rw [hclosed2]
              exact List.mem_cons_self _ _
            · obtain ⟨e, he, hEq⟩ := List.mem_map.mp hxr
              have hmem2 : e ∈ σ2.openSet := by
                rw [ho2']
                exact List.mem_append.mpr (Or.inl he)
              have hlt := hx e hmem2
              rw [hEq] at hlt
              exact absurd hlt (lt_irrefl _)
      · cases bm : rest ++ news.map (fun n => (n, (none : Option Nat))) with
        | nil =>
          apply closed_covers R start σ2 hsv ?_ ?_ ?_ x hvx
          · rw [hclosed2]
            exact List.mem_cons_of_mem _ hInv.start_closed
          · intro y hy n hn
            exact (hseen2 n).mp (hns2 y hy n hn)
          · rw [ho2']
            exact bm
        | cons e0 etl =>
          exfalso
          have he0 : e0 ∈ σ2.openSet := by
            rw [ho2', bm]
            exact List.mem_cons_self _ _
          have h1 := hx e0 he0
          have he0' : e0 ∈ rest ++ news.map (fun n => (n, (none : Option Nat))) := by
            rw [bm]
            exact List.mem_cons_self _ _
          rcases List.mem_append.mp he0' with hr | hm
          · have h2 := hmax e0 (by rw [hop]; exact List.mem_cons_of_mem c hr)
            omega
          · obtain ⟨n, hn, hEqn⟩ := List.mem_map.mp hm
            have h2 := hnews_layer n hn
            rw [← hEqn] at h1
            dsimp only at h1
            omega
  refine ⟨⟨?_, ?_, ?_, ?_, ?_, ?_, ?_, ?_, hseen2, ?_, ?_, hns2, hsorted2, hwindow2,
    hbelow2, ?_, ?_, ?_⟩, hclosed2⟩
  · -- open_none
    intro e he
    rw [ho2'] at he
    rcases List.mem_append.mp he with h | h
    · exact hInv.open_none e (by rw [hop]; exact List.mem_cons_of_mem c h)
    · obtain ⟨n, hn, rfl⟩ := List.mem_map.mp h
      rfl
  · -- open_valid
    intro e he
    rw [ho2'] at he
    rcases List.mem_append.mp he with h | h
    · exact hInv.open_valid e (by rw [hop]; exact List.mem_cons_of_mem c h)
    · obtain ⟨n, hn, rfl⟩ := List.mem_map.mp h
      exact hnews_valid n hn
  · -- open_nodup
    rw [homap, List.nodup_append]
    refine ⟨?_, hnews_nodup, ?_⟩
    · have hnd := hInv.open_nodup
      rw [hopmap] at hnd
      exact (List.nodup_cons.mp hnd).2
    · intro x hx hx2
      exact hnews_notopen x hx2 (hrest_sub x hx)
  · -- open_closed
    intro e he
    rw [hclosed2]
    rw [ho2'] at he
    rcases List.mem_append.mp he with h | h
    · intro hmem
      rcases List.mem_cons.mp hmem with hEq | hmem2
      · have hnd := hInv.open_nodup
        rw [hopmap] at hnd
        exact (List.nodup_cons.mp hnd).1 (hEq ▸ List.mem_map_of_mem Prod.fst h)
      · exact hInv.open_closed e (by rw [hop]; exact List.mem_cons_of_mem c h) hmem2
    · obtain ⟨n, hn, rfl⟩ := List.mem_map.mp h
      intro hmem
      rcases List.mem_cons.mp hmem with hEq | hmem2
      · exact hnews_necur n hn hEq
      · exact hnews_notclosed n hn hmem2
  · -- closed_valid
    intro x hx
    rw [hclosed2] at hx
    rcases List.mem_cons.mp hx with rfl | hx2
    · exact hInv.open_valid c hcmem
    · exact hInv.closed_valid x hx2
  · -- closed_nodup
    rw [hclosed2, List.nodup_cons]
    exact ⟨hInv.open_closed c hcmem, hInv.closed_nodup⟩
  · -- start_closed
    rw [hclosed2]
    exact List.mem_cons_of_mem _ hInv.start_closed
  · -- goal_open
    rw [hclosed2]
    intro hmem
    rcases List.mem_cons.mp hmem with h | h
    · exact hcg h.symm
    · exact hInv.goal_open h
  · -- g_start
    have hstart_notnews : start ∉ news := by
      intro hmem
      have hF := hnews_unseen start hmem
      rw [hstart_seen] at hF
      exact Bool.noConfusion hF
    rw [hg2 start, if_neg hstart_notnews]
    exact hInv.g_start
  · -- g_values
    intro x v hx hv
    rw [hg2 x] at hv
    by_cases hmem : x ∈ news
    · rw [if_pos hmem] at hv
      exact (Option.some_inj.mp hv).symm
    · rw [if_neg hmem] at hv
      exact hInv.g_values x v hx hv
  · -- cf_start
    have hstart_notnews : start ∉ news := by
      intro hmem
      have hF := hnews_unseen start hmem
      rw [hstart_seen] at hF
      exact Bool.noConfusion hF
    rw [hcf2 start, if_neg hstart_notnews]
    exact hInv.cf_start
  · -- cf_seen
    intro x hxs hxseen2
    rw [hcf2 x]
    by_cases hmem : x ∈ news
    · rw [if_pos hmem]
      rfl
    · rw [if_neg hmem]
      rw [hg2 x, if_neg hmem] at hxseen2
      exact hInv.cf_seen x hxs hxseen2
  · -- cf_spec
    intro x p hp
    rw [hcf2 x] at hp
    by_cases hmem : x ∈ news
    · rw [if_pos hmem] at hp
      obtain rfl := Option.some_inj.mp hp
      refine ⟨?_, hnews_sub x hmem, hnews_layer x hmem⟩
      rw [hclosed2]
      exact List.mem_cons_self _ _
    · rw [if_neg hmem] at hp
      obtain ⟨hpc, hxn, hl⟩ := hInv.cf_spec x p hp
      refine ⟨?_, hxn, hl⟩
      rw [hclosed2]
      exact List.mem_cons_of_mem _ hpc

/-- The degenerate-BFS loop, run from any `BfsInv` state with enough fuel,
pops the goal and reconstructs a shortest path from the start. -/
theorem bfsLoop_spec (R : Nat) (start goal : Hex)
    (hsv : isValidHex R start.q start.r = true)
    (hgv : isValidHex R goal.q goal.r = true) :
    ∀ (fuel : Nat) (σ : AStarState), BfsInv R start goal σ →
      2 + (2 * R + 1) * (2 * R + 1) ≤ fuel + σ.closedSet.length →
      ∃ p : List Hex,
        astarLoop R goal.q goal.r [] fuel σ = some (some p) ∧
        p.length = getDistance goal.q goal.r start.q start.r ∧
        List.Chain' (fun a b => b ∈ getNeighbors R a.q a.r) (start :: p) ∧
        (start :: p).getLast? = some goal := by
  intro fuel
  induction fuel with
  | zero =>
    intro σ hInv hfuel
    exfalso
    have hsub : ∀ x ∈ σ.closedSet, x = start ∨ isValidHex R x.q x.r = true :=
      fun x hx => Or.inr (hInv.closed_valid x hx)
    have := nodup_length_le_square R start σ.closedSet hInv.closed_nodup hsub
    omega
  | succ n ih =>
    intro σ hInv hfuel
    cases hop : σ.openSet with
    | nil =>
      exfalso
      apply hInv.goal_open
      apply closed_covers R start σ hsv hInv.start_closed ?_ hop goal hgv
      intro y hy m hm
      exact (hInv.seen_iff m).mp (hInv.nbrs_seen y hy m hm)
    | cons c rest =>
      have hsort : sortByF σ.openSet = c :: rest := by
        rw [sortByF_of_all_none σ.openSet hInv.open_none, hop]
      by_cases hcg : c.1.q = goal.q ∧ c.1.r = goal.r
      · -- the goal is popped: return the reconstructed path
        have hceq : c.1 = goal := hex_eq_of _ _ hcg.1 hcg.2
        rw [astarLoop_cons_goal R goal.q goal.r [] n σ c rest hsort hcg]
        have hcseen : (lookupMap σ.gScore c.1).isSome = true := by
          rw [hInv.seen_iff]
          refine Or.inr ?_
          rw [hop]
          exact List.mem_map_of_mem Prod.fst (List.mem_cons_self c rest)
        have hdist : getDistance goal.q goal.r start.q start.r ≤ 2 * R :=
          getDistance_le_of_valid R goal start hgv hsv
        have hsq : 2 * R + 1 ≤ (2 * R + 1) * (2 * R + 1) :=
          Nat.le_mul_of_pos_right _ (by omega)
        obtain ⟨l, hrec, hlen, hlast, hchain⟩ :=
          recon_spec R start σ.cameFrom σ.gScore hInv.cf_start hInv.cf_seen
            (fun x p hp => by
              obtain ⟨hpc, hxn, hl⟩ := hInv.cf_spec x p hp
              exact ⟨(hInv.seen_iff p).mpr (Or.inl hpc), hxn, hl⟩)
            (getDistance c.1.q c.1.r start.q start.r) c.1 rfl hcseen
            ((2 * R + 1) * (2 * R + 1) + 2) (by rw [hceq]; omega)
        have hhead : start ∈ ((c.1 :: l).reverse).head? := by
          rw [List.head?_reverse]
          exact hlast
        have hcons := List.cons_head?_tail hhead
        refine ⟨((reconPath σ.cameFrom ((2 * R + 1) * (2 * R + 1) + 2) c.1).reverse).drop 1,
          rfl, ?_, ?_, ?_⟩
        · rw [hrec, List.length_drop, List.length_reverse, hlen, hceq]
          omega
        · rw [hrec, List.drop_one, hcons, List.chain'_reverse]
          exact hchain
        · rw [hrec, List.drop_one, hcons, List.getLast?_reverse]
          rw [show (c.1 :: l).head? = some c.1 from rfl, hceq]
      · -- a non-goal node is closed; the invariant is preserved
        have hcg' : c.1 ≠ goal := fun hEq => hcg ⟨by rw [hEq], by rw [hEq]⟩
        rw [astarLoop_cons_notgoal R goal.q goal.r [] n σ _ c rest hsort hcg rfl]
        obtain ⟨hInv2, hclosed2⟩ := bfsInv_step R start goal σ hsv hInv c rest hop hcg'
        apply ih _ hInv2
        rw [hclosed2, List.length_cons]
        omega

/-- After the first iteration (which pops the start and discovers all of its
neighbours) the degenerate-BFS invariant holds. -/
theorem bfsInv_init (R : Nat) (start goal : Hex)
    (hsv : isValidHex R start.q start.r = true) (hsg : start ≠ goal) :
    BfsInv R start goal
      ((getNeighbors R start.q start.r).foldl (expandNeighbor goal.q goal.r [] start)
        { openSet := [], closedSet := [start], cameFrom := [],
          gScore := [(start, some 0)],
          fScore := [(start, some (getDistance start.q start.r goal.q goal.r))] }) := by
  set base : AStarState :=
    { openSet := [], closedSet := [start], cameFrom := [],
      gScore := [(start, some 0)],
      fScore := [(start, some (getDistance start.q start.r goal.q goal.r))] } with hbase
  have hns : (getNeighbors R start.q start.r).Nodup := getNeighbors_nodup R start.q start.r
  have hcns : start ∉ getNeighbors R start.q start.r :=
    self_not_mem_getNeighbors R start.q start.r
  have hgbase : lookupMap base.gScore start = some (some 0) := by
    rw [show base.gScore = [(start, (some 0 : Option Nat))] from rfl, lookupMap_cons,
      if_pos rfl]
  have hcurg : orInfinity (lookupMap base.gScore start) = none := by
    rw [hgbase]
    rfl
  have hopen0 : ∀ e ∈ base.openSet, (lookupMap base.gScore e.1).isSome = true := by
    intro e he
    exact absurd he (List.not_mem_nil e)
  obtain ⟨hc2, ho2, hg2, hcf2⟩ :=
    expand_fold_spec goal.q goal.r [] start (getNeighbors R start.q start.r) base hns hcns
      hcurg hopen0
  set σ2 := (getNeighbors R start.q start.r).foldl (expandNeighbor goal.q goal.r [] start) base
    with hσ2
  set news := newsOf [] base (getNeighbors R start.q start.r) with hnews
  have hclosed2 : σ2.closedSet = [start] := hc2
  have hnewsiff : ∀ n, n ∈ news ↔ n ∈ getNeighbors R start.q start.r := by
    intro n
    rw [hnews, mem_newsOf]
    constructor
    · exact fun h => h.1
    · intro hn
      refine ⟨hn, ?_, rfl, ?_⟩
      · intro hmem
        rw [show base.closedSet = [start] from rfl, List.mem_singleton] at hmem
        rw [hmem] at hn
        exact hcns hn
      · have hne : ¬ (start = n) := by
          intro hEq
          rw [← hEq] at hn
          exact hcns hn
        rw [show base.gScore = [(start, (some 0 : Option Nat))] from rfl, lookupMap_cons,
          if_neg hne]
        rfl
  have ho2' : σ2.openSet = news.map (fun n => (n, (none : Option Nat))) := by
    rw [ho2]
    rfl
  have homap : σ2.openSet.map Prod.fst = news := by
    rw [ho2', List.map_map]
    rw [show (Prod.fst ∘ fun n => (n, (none : Option Nat))) = id from rfl, List.map_id]
  have hnews_layer : ∀ n ∈ news, getDistance n.q n.r start.q start.r = 1 := by
    intro n hn
    exact mem_getNeighbors_start_layer R start n ((hnewsiff n).mp hn)
  have hnews_valid : ∀ n ∈ news, isValidHex R n.q n.r = true := by
    intro n hn
    exact ((getNeighbors_mem R start.q start.r n).mp ((hnewsiff n).mp hn)).2
  have hnews_nestart : ∀ n ∈ news, n ≠ start := by
    intro n hn hEq
    rw [hEq] at hn
    exact hcns ((hnewsiff start).mp hn)
  have hstart_notnews : start ∉ news := fun hmem => hcns ((hnewsiff start).mp hmem)
  have hseen2 : ∀ x, (lookupMap σ2.gScore x).isSome = true ↔
      (x ∈ σ2.closedSet ∨ x ∈ σ2.openSet.map Prod.fst) := by
    intro x
    rw [hg2 x, hclosed2, homap]
    by_cases hx : x ∈ news
    · rw [if_pos hx]
      constructor
      · intro _
        exact Or.inr hx
      · intro _
        rfl
    · rw [if_neg hx]
      rw [show base.gScore = [(start, (some 0 : Option Nat))] from rfl, lookupMap_cons]
      by_cases hxs : start = x
      · rw [if_pos hxs]
        constructor
        · intro _
          refine Or.inl ?_
          rw [← hxs]
          exact List.mem_singleton.mpr rfl
        · intro _
          rfl
      · rw [if_neg hxs]
        constructor
        · intro habs
          rw [show lookupMap ([] : List (Hex × Option Nat)) x = none from rfl] at habs
          exact Bool.noConfusion habs
        · rintro (h | h)
          · exact absurd (List.mem_singleton.mp h).symm hxs
          · exact absurd h hx
  have hns2 : ∀ y ∈ σ2.closedSet, ∀ n ∈ getNeighbors R y.q y.r,
      (lookupMap σ2.gScore n).isSome = true := by
    intro y hy n hn
    rw [hclosed2, List.mem_singleton] at hy
    subst hy
    rw [hg2 n, if_pos ((hnewsiff n).mpr hn)]
    rfl
  refine ⟨?_, ?_, ?_, ?_, ?_, ?_, ?_, ?_, hseen2, ?_, ?_, hns2, ?_, ?_, ?_, ?_, ?_, ?_⟩
  · -- open_none
    intro e he
    rw [ho2'] at he
    obtain ⟨n, hn, rfl⟩ := List.mem_map.mp he
    rfl
  · -- open_valid
    intro e he
    rw [ho2'] at he
    obtain ⟨n, hn, rfl⟩ := List.mem_map.mp he
    exact hnews_valid n hn
  · -- open_nodup
    rw [homap]
    exact hns.filter _
  · -- open_closed
    intro e he
    rw [ho2'] at he
    obtain ⟨n, hn, rfl⟩ := List.mem_map.mp he
    rw [hclosed2]
    intro hmem
    exact hnews_nestart n hn (List.mem_singleton.mp hmem)
  · -- closed_valid
    intro x hx
    rw [hclosed2, List.mem_singleton] at hx
    subst hx
    exact hsv
  · -- closed_nodup
    rw [hclosed2]
    exact List.nodup_singleton _
  · -- start_closed
    rw [hclosed2]
    exact List.mem_singleton.mpr rfl
  · -- goal_open
    rw [hclosed2]
    intro hmem
    exact hsg (List.mem_singleton.mp hmem).symm
  · -- g_start
    rw [hg2 start, if_neg hstart_notnews]
    exact hgbase
  · -- g_values
    intro x v hx hv
    rw [hg2 x] at hv
    by_cases hmem : x ∈ news
    · rw [if_pos hmem] at hv
      exact (Option.some_inj.mp hv).symm
    · rw [if_neg hmem] at hv
      rw [show base.gScore = [(start, (some 0 : Option Nat))] from rfl, lookupMap_cons,
        if_neg (fun h => hx h.symm)] at hv
      rw [show lookupMap ([] : List (Hex × Option Nat)) x = none from rfl] at hv
      exact Option.noConfusion hv
  · -- open_sorted
    apply List.pairwise_of_forall_mem_list
    intro a ha b hb
    rw [ho2'] at ha hb
    obtain ⟨n1, hn1, rfl⟩ := List.mem_map.mp ha
    obtain ⟨n2, hn2, rfl⟩ := List.mem_map.mp hb
    dsimp only
    rw [hnews_layer n1 hn1, hnews_layer n2 hn2]
  · -- open_window
    intro a ha b hb
    rw [ho2'] at ha hb
    obtain ⟨n1, hn1, rfl⟩ := List.mem_map.mp ha
    obtain ⟨n2, hn2, rfl⟩ := List.mem_map.mp hb
    dsimp only
    rw [hnews_layer n1 hn1, hnews_layer n2 hn2]
    omega
  · -- below_closed
    intro x hvx hx
    cases bm : news.map (fun n => (n, (none : Option Nat))) with
    | nil =>
      apply closed_covers R start σ2 hsv ?_ ?_ ?_ x hvx
      · rw [hclosed2]
        exact List.mem_singleton.mpr rfl
      · intro y hy n hn
        exact (hseen2 n).mp (hns2 y hy n hn)
      · rw [ho2']
        exact bm
    | cons e0 etl =>
      have he0 : e0 ∈ σ2.openSet := by
        rw [ho2', bm]
        exact List.mem_cons_self _ _
      have h1 := hx e0 he0
      have he0' : e0 ∈ news.map (fun n => (n, (none : Option Nat))) := by
        rw [bm]
        exact List.mem_cons_self _ _
      obtain ⟨n, hn, hEqn⟩ := List.mem_map.mp he0'
      rw [← hEqn] at h1
      dsimp only at h1
      rw [hnews_layer n hn] at h1
      have hx0 : getDistance x.q x.r start.q start.r = 0 := by omega
      rw [getDistance_eq_zero_iff] at hx0
      rw [hex_eq_of x start hx0.1 hx0.2, hclosed2]
      exact List.mem_singleton.mpr rfl
  · -- cf_start
    rw [hcf2 start, if_neg hstart_notnews]
    rfl
  · -- cf_seen
    intro x hxs hxseen
    rw [hcf2 x]
    by_cases hmem : x ∈ news
    · rw [if_pos hmem]
      rfl
    · rw [if_neg hmem]
      exfalso
      rw [hg2 x, if_neg hmem] at hxseen
      rw [show base.gScore = [(start, (some 0 : Option Nat))] from rfl, lookupMap_cons,
        if_neg (fun h => hxs h.symm)] at hxseen
      rw [show lookupMap ([] : List (Hex × Option Nat)) x = none from rfl] at hxseen
      exact Bool.noConfusion hxseen
  · -- cf_spec
    intro x p hp
    rw [hcf2 x] at hp
    by_cases hmem : x ∈ news
    · rw [if_pos hmem] at hp
      obtain rfl := Option.some_inj.mp hp
      refine ⟨?_, (hnewsiff x).mp hmem, ?_⟩
      · rw [hclosed2]
        exact List.mem_singleton.mpr rfl
      · rw [hnews_layer x hmem, getDistance_self]
    · rw [if_neg hmem] at hp
      rw [show lookupMap base.cameFrom x = none from rfl] at hp
      exact Option.noConfusion hp

/-- **C1.**  For every pair of valid grid coordinates at hex distance `d`,
`findPath` on an empty obstacle set returns a path (never `null`): the
coordinates strictly after the start, in traversal order (each step moves to
a neighbour), ending at the goal, of length exactly `d`; when the start
equals the goal the returned sequence is empty.  (Due to the `|| Infinity`
falsy-zero quirk the A* degenerates into breadth-first search, which still
yields shortest paths on the unweighted hex board.) -/
theorem claim_C1 (R : Nat) (start goal : Hex)
    (hs : isValidHex R start.q start.r = true)
    (hg : isValidHex R goal.q goal.r = true) :
    ∃ p : List Hex,
      findPath R start.q start.r goal.q goal.r [] = some p ∧
      p.length = getDistance start.q start.r goal.q goal.r ∧
      List.Chain' (fun a b => b ∈ getNeighbors R a.q a.r) (start :: p) ∧
      (start :: p).getLast? = some goal ∧
      (start = goal → p = []) := by
  by_cases hsg : start = goal
  · subst hsg
    have hhit : astarLoop R start.q start.r [] ((2 * R + 1) * (2 * R + 1) + 2)
        { openSet := [(⟨start.q, start.r⟩,
            some (getDistance start.q start.r start.q start.r))],
          closedSet := [], cameFrom := [],
          gScore := [(⟨start.q, start.r⟩, some 0)],
          fScore := [(⟨start.q, start.r⟩,
            some (getDistance start.q start.r start.q start.r))] } =
        some (some []) :=
      astarLoop_cons_goal R start.q start.r [] ((2 * R + 1) * (2 * R + 1) + 1)
        { openSet := [(⟨start.q, start.r⟩,
            some (getDistance start.q start.r start.q start.r))],
          closedSet := [], cameFrom := [],
          gScore := [(⟨start.q, start.r⟩, some 0)],
          fScore := [(⟨start.q, start.r⟩,
            some (getDistance start.q start.r start.q start.r))] }
        (⟨start.q, start.r⟩, some (getDistance start.q start.r start.q start.r)) []
        rfl ⟨rfl, rfl⟩
    refine ⟨[], ?_, ?_, List.chain'_singleton start, rfl, fun _ => rfl⟩
    · show findPath R start.q start.r start.q start.r [] = some []
      unfold findPath
      dsimp only
      rw [hhit]
    · rw [getDistance_self]
      rfl
  · set σnext : AStarState := (getNeighbors R start.q start.r).foldl
      (expandNeighbor goal.q goal.r [] ⟨start.q, start.r⟩)
      { openSet := [], closedSet := [⟨start.q, start.r⟩], cameFrom := [],
        gScore := [(⟨start.q, start.r⟩, some 0)],
        fScore := [(⟨start.q, start.r⟩,
          some (getDistance start.q start.r goal.q goal.r))] } with hσnext
    have hne' : ¬(start.q = goal.q ∧ start.r = goal.r) :=
      fun hpair => hsg (hex_eq_of start goal hpair.1 hpair.2)
    have hstep : astarLoop R goal.q goal.r [] ((2 * R + 1) * (2 * R + 1) + 2)
        { openSet := [(⟨start.q, start.r⟩,
            some (getDistance start.q start.r goal.q goal.r))],
          closedSet := [], cameFrom := [],
          gScore := [(⟨start.q, start.r⟩, some 0)],
          fScore := [(⟨start.q, start.r⟩,
            some (getDistance start.q start.r goal.q goal.r))] } =
        astarLoop R goal.q goal.r [] ((2 * R + 1) * (2 * R + 1) + 1) σnext :=
      astarLoop_cons_notgoal R goal.q goal.r [] ((2 * R + 1) * (2 * R + 1) + 1) _ _
        (⟨start.q, start.r⟩, some (getDistance start.q start.r goal.q goal.r)) []
        rfl hne' hσnext
    have hInv2 : BfsInv R start goal σnext := bfsInv_init R start goal hs hsg
    have hlenpos : 0 < σnext.closedSet.length := List.length_pos_of_mem hInv2.start_closed
    obtain ⟨p, hloop, hplen, hpchain, hplast⟩ :=
      bfsLoop_spec R start goal hs hg ((2 * R + 1) * (2 * R + 1) + 1) σnext hInv2 (by omega)
    refine ⟨p, ?_, ?_, hpchain, hplast, fun hEq => absurd hEq hsg⟩
    · show findPath R start.q start.r goal.q goal.r [] = some p
      unfold findPath
      dsimp only
      rw [hstep, hloop]
    · rw [hplen, getDistance_comm]

/-- Witness for C1: on the radius-2 grid, from `(0,0)` to `(2,0)` (distance
2) `findPath` returns a 2-step path ending at the goal. -/
theorem claim_C1_witness :
    isValidHex 2 0 0 = true ∧ isValidHex 2 2 0 = true ∧
      (∃ p : List Hex,
        findPath 2 0 0 2 0 [] = some p ∧
        p.length = getDistance 0 0 2 0 ∧
        List.Chain' (fun a b => b ∈ getNeighbors 2 a.q a.r) (⟨0, 0⟩ :: p) ∧
        ((⟨0, 0⟩ : Hex) :: p).getLast? = some ⟨2, 0⟩ ∧
        ((⟨0, 0⟩ : Hex) = ⟨2, 0⟩ → p = [])) :=
  ⟨by decide, by decide, claim_C1 2 ⟨0, 0⟩ ⟨2, 0⟩ (by decide) (by decide)⟩

end LucaGame
